import Mathlib

/-!
Verification of the field-resolution pipeline of `pyPdfScheemaExtractor`.

The development shallowly embeds the Python sources under `pdf_extractor/`:
`preprocessor.py`, `candidate_generator.py`, `scorer_validator.py`,
`decision_engine.py`, `llm_client.py` and `extractor.py`.  Python strings are
`String` / `List Char`, floats are `ℚ`, dictionaries are association lists in
insertion order (looked up with `List.lookup`), and `None` is `Option.none`.
The two external collaborators that the pipeline consults — the `re` module
match iterator used by the candidate generator and the sentence-embedding
similarity — are oracles passed in as functions; the reasoning-fallback
service's parsed JSON response is an oracle value (`none` models a raised
exception anywhere inside the `try` block).  The handful of fixed regular
expressions that the pipeline itself evaluates (shape validators, CEP / date
tokens, street names) are compiled by hand into executable character-list
matchers next to the regex text they implement.  Character classes follow
Python's semantics on the ASCII and Latin-1 ranges that the patterns mention;
`str.lower`/`str.upper` are modelled by Lean's ASCII case maps.
-/

/-! ### Python character classes and string primitives -/

/-- Python whitespace (`\s`, `str.strip()`, `str.split()`): the six ASCII
whitespace characters. -/
def pySpace (c : Char) : Bool :=
  c = ' ' || c = '\t' || c = '\n' || c = '\r' || c = '\x0b' || c = '\x0c'

/-- Python word character (`\w`): ASCII alphanumerics, underscore, and the
Latin-1 letters (`À`–`ÿ` without the two arithmetic signs `×`, `÷`). -/
def pyWord (c : Char) : Bool :=
  c.isAlphanum || c = '_' ||
    (decide (0xC0 ≤ c.toNat) && decide (c.toNat ≤ 0xFF) && c != '×' && c != '÷')

/-- The character class `[A-Za-zÀ-ÿ]` as written in the sources (the raw
codepoint range `0xC0`–`0xFF`, which does include `×` and `÷`). -/
def latinLetter (c : Char) : Bool :=
  c.isAlpha || (decide (0xC0 ≤ c.toNat) && decide (c.toNat ≤ 0xFF))

/-- `str.strip()`: drop leading and trailing whitespace. -/
def pyStripList (l : List Char) : List Char :=
  ((l.dropWhile pySpace).reverse.dropWhile pySpace).reverse

/-- One pass of `re.sub(r'\s+', ' ', ·)`: every maximal whitespace run becomes
a single space.  The flag records whether the previous character was
whitespace. -/
def collapseWsAux : Bool → List Char → List Char
  | _, [] => []
  | inWs, c :: cs =>
    if pySpace c then
      (if inWs then collapseWsAux true cs else ' ' :: collapseWsAux true cs)
    else c :: collapseWsAux false cs

def collapseWs (l : List Char) : List Char := collapseWsAux false l

def pyLowerList (l : List Char) : List Char := l.map Char.toLower

def pyUpperList (l : List Char) : List Char := l.map Char.toUpper

def pyLowerStr (s : String) : String := String.mk (pyLowerList s.data)

/-- Python's `in` operator on strings: substring containment. -/
def strContains (s sub : String) : Bool :=
  (List.range (s.data.length + 1)).any
    (fun i => decide (((s.data.drop i).take sub.data.length) = sub.data))

/-- `str.split()` (no separator): split on whitespace runs, dropping empty
pieces.  `acc` is the current word, reversed. -/
def pySplitAux : List Char → List Char → List (List Char)
  | [], acc => if acc.isEmpty then [] else [acc.reverse]
  | c :: cs, acc =>
    if pySpace c then
      (if acc.isEmpty then pySplitAux cs [] else acc.reverse :: pySplitAux cs [])
    else pySplitAux cs (c :: acc)

def pySplitList (l : List Char) : List (List Char) := pySplitAux l []

/-- `' '.join(words)`. -/
def joinWords : List (List Char) → List Char
  | [] => []
  | [w] => w
  | w :: ws => w ++ ' ' :: joinWords ws

/-- `' '.join(value.split())`: the whitespace clean-up used by the decision
engine's `_normalize_value`. -/
def joinSplit (l : List Char) : List Char := joinWords (pySplitList l)

def spaceJoin : List String → String
  | [] => ""
  | [s] => s
  | s :: rest => s ++ " " ++ spaceJoin rest

/-! ### Preprocessor (`preprocessor.py`)

`normalization_patterns` applies, in order: collapse whitespace runs to one
space, then delete every character outside the allow-list (word characters,
whitespace, `.`, `-`, `/`, `(`, `)`); `normalize_text` strips first and
lower-cases last. -/

def allowedChar (c : Char) : Bool :=
  pyWord c || pySpace c || c = '.' || c = '-' || c = '/' || c = '(' || c = ')'

/-- `Preprocessor.normalize_text`. -/
def normalize_text (s : String) : String :=
  String.mk (pyLowerList ((collapseWs (pyStripList s.data)).filter allowedChar))

/-- `Preprocessor.tokenize` (the comprehension's emptiness filter is kept even
though `split()` already drops empty tokens). -/
def tokenize (s : String) : List String :=
  ((pySplitList (normalize_text s).data).map String.mk).filter (fun t => !t.isEmpty)

/-- `text_extractor.TextBlock`: a positioned text fragment.  `bbox` is
`(x0, y0, x1, y1)`. -/
structure TextBlock where
  text : String
  bbox : ℚ × ℚ × ℚ × ℚ
  font : Option String
  size : Option ℚ
  deriving DecidableEq, Repr

/-- The sort key of `sorted(blocks, key=lambda b: (b.bbox[1], b.bbox[0]))`:
top, then left. -/
def blockKey (b : TextBlock) : ℚ × ℚ := (b.bbox.2.1, b.bbox.1)

def keyLt (p q : ℚ × ℚ) : Bool :=
  decide (p.1 < q.1) || (decide (p.1 = q.1) && decide (p.2 < q.2))

/-- Stable insertion: a later block passes an earlier one only when its key is
strictly smaller, matching Python's stable `sorted`. -/
def sortedInsert (b : TextBlock) : List TextBlock → List TextBlock
  | [] => [b]
  | x :: xs => if keyLt (blockKey b) (blockKey x) then b :: x :: xs else x :: sortedInsert b xs

/-- `sorted(blocks, key=lambda b: (b.bbox[1], b.bbox[0]))`. -/
def pySorted (l : List TextBlock) : List TextBlock :=
  l.foldl (fun acc b => sortedInsert b acc) []

/-- The merge test of `Preprocessor.group_blocks`: vertical offset below
`max_distance` and horizontal gap from the last block's right edge below twice
it. -/
def sameGroup (max_distance : ℚ) (last b : TextBlock) : Bool :=
  decide (|b.bbox.2.1 - last.bbox.2.1| < max_distance) &&
    decide (b.bbox.1 - last.bbox.2.2.1 < max_distance * 2)

/-- The grouping loop.  The current group is carried reversed, so its head is
Python's `current_group[-1]`. -/
def groupLoop (max_distance : ℚ) : List TextBlock → List TextBlock → List (List TextBlock)
  | curRev, [] => [curRev.reverse]
  | curRev, b :: bs =>
    match curRev with
    | [] => groupLoop max_distance [b] bs
    | last :: _ =>
      if sameGroup max_distance last b then groupLoop max_distance (b :: curRev) bs
      else curRev.reverse :: groupLoop max_distance [b] bs

/-- `Preprocessor.group_blocks` (the call sites use the default
`max_distance = 20`). -/
def group_blocks (blocks : List TextBlock) (max_distance : ℚ) : List (List TextBlock) :=
  match pySorted blocks with
  | [] => []
  | b :: bs => groupLoop max_distance [b] bs

/-! Facts about the grouping loop used by claim C10. -/

theorem groupLoop_flatten (max_distance : ℚ) :
    ∀ (bs curRev : List TextBlock),
      (groupLoop max_distance curRev bs).flatten = curRev.reverse ++ bs := by
  intro bs
  induction bs with
  | nil => intro curRev; simp [groupLoop]
  | cons b bs ih =>
    intro curRev
    match curRev with
    | [] => simpa [groupLoop] using ih [b]
    | last :: rest =>
      by_cases h : sameGroup max_distance last b = true
      · simp [groupLoop, h, ih (b :: last :: rest)]
      · simp only [groupLoop, h, if_false, Bool.false_eq_true, List.flatten]
        simp [ih [b]]

theorem groupLoop_ne_nil (max_distance : ℚ) :
    ∀ (bs curRev : List TextBlock), curRev ≠ [] →
      ∀ g ∈ groupLoop max_distance curRev bs, g ≠ [] := by
  intro bs
  induction bs with
  | nil =>
    intro curRev hc g hg
    simp only [groupLoop, List.mem_singleton] at hg
    subst hg
    simpa using hc
  | cons b bs ih =>
    intro curRev hc g hg
    match curRev with
    | [] => exact absurd rfl hc
    | last :: rest =>
      by_cases h : sameGroup max_distance last b = true
      · exact ih (b :: last :: rest) (by simp) g (by simpa [groupLoop, h] using hg)
      · simp only [groupLoop, h, if_false, Bool.false_eq_true, List.mem_cons] at hg
        rcases hg with hg | hg
        · subst hg; simp
        · exact ih [b] (by simp) g hg

theorem sortedInsert_perm (b : TextBlock) :
    ∀ l : List TextBlock, (sortedInsert b l).Perm (b :: l) := by
  intro l
  induction l with
  | nil => simp [sortedInsert]
  | cons x xs ih =>
    by_cases h : keyLt (blockKey b) (blockKey x) = true
    · simp [sortedInsert, h]
    · simp only [sortedInsert, h, if_false, Bool.false_eq_true]
      exact (ih.cons x).trans (List.Perm.swap b x xs)

theorem pySorted_perm (l : List TextBlock) : (pySorted l).Perm l := by
  suffices h : ∀ (l acc : List TextBlock),
      (l.foldl (fun acc b => sortedInsert b acc) acc).Perm (acc ++ l) by
    simpa using h l []
  intro l
  induction l with
  | nil => intro acc; simp
  | cons b bs ih =>
    intro acc
    refine (ih (sortedInsert b acc)).trans ?_
    exact ((sortedInsert_perm b acc).append_right bs).trans List.perm_middle.symm

/-! ### Hand-compiled regular expressions

Each definition implements one fixed pattern from the sources; `\b` follows
Python semantics (word-character parity changes between adjacent positions,
with positions outside the string counting as non-word). -/

def wordAt (cs : List Char) (i : Nat) : Bool :=
  ((cs.get? i).map pyWord).getD false

def boundaryAt (cs : List Char) : Nat → Bool
  | 0 => wordAt cs 0
  | i + 1 => wordAt cs i != wordAt cs (i + 1)

def digitAt (cs : List Char) (i : Nat) : Bool :=
  ((cs.get? i).map Char.isDigit).getD false

def digitsAt (cs : List Char) (i n : Nat) : Bool :=
  (List.range n).all (fun k => digitAt cs (i + k))

/-- Match of `\b\d{5}-?\d{3}\b` starting at position `i`, returning the
matched token.  The optional dash needs no backtracking: if a dash is present
the dash-less branch would require a digit where the dash sits. -/
def cepTokenAt (cs : List Char) (i : Nat) : Option (List Char) :=
  if boundaryAt cs i && digitsAt cs i 5 then
    if cs.get? (i + 5) = some '-' then
      if digitsAt cs (i + 6) 3 && boundaryAt cs (i + 9) then some ((cs.drop i).take 9)
      else none
    else
      if digitsAt cs (i + 5) 3 && boundaryAt cs (i + 8) then some ((cs.drop i).take 8)
      else none
  else none

/-- `re.search(r'\b(\d{5}-?\d{3})\b', ·)`: leftmost match. -/
def cepSearch (cs : List Char) : Option (List Char) :=
  (List.range (cs.length + 1)).findSome? (cepTokenAt cs)

def sepChar (c : Char) : Bool := c = '/' || c = '-'

/-- Full match of `^\d{1,2}[/\-]\d{1,2}[/\-]\d{2,4}$`.  Greedy digit runs are
deterministic because the separators are not digits. -/
def dateShapeAnchored (cs : List Char) : Bool :=
  let d1 := cs.takeWhile Char.isDigit
  match cs.dropWhile Char.isDigit with
  | s1 :: r2 =>
    if sepChar s1 && decide (1 ≤ d1.length) && decide (d1.length ≤ 2) then
      let d2 := r2.takeWhile Char.isDigit
      match r2.dropWhile Char.isDigit with
      | s2 :: r4 =>
        sepChar s2 && decide (1 ≤ d2.length) && decide (d2.length ≤ 2) &&
          r4.all Char.isDigit && decide (2 ≤ r4.length) && decide (r4.length ≤ 4)
      | [] => false
    else false
  | [] => false

/-- Prefix match of `\d{1,2}[/\-]\d{1,2}[/\-]\d{2,4}` via `re.match` (anchored
at the start only). -/
def dateShapeAtStart (cs : List Char) : Bool :=
  let d1 := cs.takeWhile Char.isDigit
  match cs.dropWhile Char.isDigit with
  | s1 :: r2 =>
    if sepChar s1 && decide (1 ≤ d1.length) && decide (d1.length ≤ 2) then
      let d2 := r2.takeWhile Char.isDigit
      match r2.dropWhile Char.isDigit with
      | s2 :: r4 =>
        sepChar s2 && decide (1 ≤ d2.length) && decide (d2.length ≤ 2) &&
          decide (2 ≤ (r4.takeWhile Char.isDigit).length)
      | [] => false
    else false
  | [] => false

/-- Full match of `^(\d{1,2})/(\d{1,2})/(\d{2,4})$` returning the three
capture groups (day, month, year). -/
def dateMatchSlash (cs : List Char) : Option (List Char × List Char × List Char) :=
  let d1 := cs.takeWhile Char.isDigit
  match cs.dropWhile Char.isDigit with
  | '/' :: r2 =>
    if decide (1 ≤ d1.length) && decide (d1.length ≤ 2) then
      let d2 := r2.takeWhile Char.isDigit
      match r2.dropWhile Char.isDigit with
      | '/' :: r4 =>
        if decide (1 ≤ d2.length) && decide (d2.length ≤ 2) &&
            r4.all Char.isDigit && decide (2 ≤ r4.length) && decide (r4.length ≤ 4) then
          some (d1, d2, r4)
        else none
      | _ => none
    else none
  | _ => none

/-- The street-type alternation of the decision engine's address override,
`\b(rua|avenida|av\.|travessa|alameda|rodovia|rod\.|estrada|praça|praca|largo)\b`
(mandatory dots after the abbreviations). -/
def streetWordsDot : List (List Char) :=
  (["rua", "avenida", "av.", "travessa", "alameda", "rodovia", "rod.",
    "estrada", "praça", "praca", "largo"].map String.data)

/-- The scorer's street-type alternation with `av\.?` / `rod\.?` (optional
dots, compiled to two literal alternatives each). -/
def streetWordsOptDot : List (List Char) :=
  (["rua", "avenida", "av.", "av", "travessa", "alameda", "rodovia", "rod.",
    "rod", "estrada", "praça", "praca", "largo"].map String.data)

def litAt (cs : List Char) (i : Nat) (w : List Char) : Bool :=
  decide (((cs.drop i).take w.length) = w)

def streetAltAt (cs : List Char) (i : Nat) (w : List Char) : Bool :=
  boundaryAt cs i && litAt cs i w && boundaryAt cs (i + w.length)

/-- `re.search` existence for a `\b(...)\b` alternation of literal words. -/
def streetSearch (alts : List (List Char)) (cs : List Char) : Bool :=
  (List.range (cs.length + 1)).any (fun i => alts.any (streetAltAt cs i))

def extChar (c : Char) : Bool := pyWord c || c = '-' || c = '/'

/-- Match of `\b\d+[\w\-\/]*\b` starting at `i`.  Backtracking only ever stops
at the end of the digit run or inside the tail class, and a boundary can never
fall between two digits, so it suffices to test every stop after the maximal
digit run. -/
def numberTokenAt (cs : List Char) (i : Nat) : Bool :=
  boundaryAt cs i && digitAt cs i &&
    (let dEnd := i + ((cs.drop i).takeWhile Char.isDigit).length
     let maxExt := ((cs.drop dEnd).takeWhile extChar).length
     (List.range (maxExt + 1)).any (fun k => boundaryAt cs (dEnd + k)))

/-- `re.search(r'\b\d+[\w\-\/]*\b', ·)` existence. -/
def numberTokenSearch (cs : List Char) : Bool :=
  (List.range (cs.length + 1)).any (numberTokenAt cs)

/-- Full match of `^[A-Za-zÀ-ÿ]+(?:\s+[A-Za-zÀ-ÿ]+)*$`: only letters and
whitespace, beginning and ending with a letter. -/
def cityShape (cs : List Char) : Bool :=
  match cs with
  | [] => false
  | c :: _ =>
    latinLetter c &&
      (match cs.getLast? with
       | some d => latinLetter d
       | none => false) &&
      cs.all (fun ch => latinLetter ch || pySpace ch)

/-- `'@' in text and '.' in text.split('@')[-1]` (the scorer's loose e-mail
check; `split('@')[-1]` is the text after the last `@`). -/
def emailLoose (cs : List Char) : Bool :=
  cs.contains '@' && (cs.reverse.takeWhile (fun c => c != '@')).contains '.'

/-- Consume `c?`: greedy, and safe without backtracking because every
continuation in the patterns below starts with a digit. -/
def optChar (c : Char) (cs : List Char) : List Char :=
  match cs with
  | d :: rest => if d = c then rest else cs
  | [] => cs

/-- Consume `\s?`. -/
def optSpace (cs : List Char) : List Char :=
  match cs with
  | d :: rest => if pySpace d then rest else d :: rest
  | [] => []

/-- Consume exactly `n` digits. -/
def takeDigits (n : Nat) (cs : List Char) : Option (List Char) :=
  if decide ((cs.take n).length = n) && (cs.take n).all Char.isDigit then some (cs.drop n)
  else none

/-- `^\d{3}\.?\d{3}\.?\d{3}-?\d{2}$` (`validation_patterns['cpf']`). -/
def cpfFullMatch (cs : List Char) : Bool :=
  (do
    let r1 ← takeDigits 3 cs
    let r2 ← takeDigits 3 (optChar '.' r1)
    let r3 ← takeDigits 3 (optChar '.' r2)
    let r4 ← takeDigits 2 (optChar '-' r3)
    if r4.isEmpty then some () else none).isSome

/-- `^\d{2}\.?\d{3}\.?\d{3}/?\d{4}-?\d{2}$` (`validation_patterns['cnpj']`). -/
def cnpjFullMatch (cs : List Char) : Bool :=
  (do
    let r1 ← takeDigits 2 cs
    let r2 ← takeDigits 3 (optChar '.' r1)
    let r3 ← takeDigits 3 (optChar '.' r2)
    let r4 ← takeDigits 4 (optChar '/' r3)
    let r5 ← takeDigits 2 (optChar '-' r4)
    if r5.isEmpty then some () else none).isSome

/-- `^\d{5}-?\d{3}$` (`validation_patterns['cep']`). -/
def cepFullMatch (cs : List Char) : Bool :=
  (do
    let r1 ← takeDigits 5 cs
    let r2 ← takeDigits 3 (optChar '-' r1)
    if r2.isEmpty then some () else none).isSome

/-- `^\d{1,2}[/\-]\d{1,2}[/\-]\d{2,4}$` (`validation_patterns['date']`). -/
def dateFullSepMatch (cs : List Char) : Bool := dateShapeAnchored cs

def phoneEnd (cs : List Char) : Bool :=
  ((takeDigits 4 (optChar '-' cs)).map List.isEmpty).getD false

/-- The `\d{4,5}-?\d{4}$` tail of the phone pattern: the greedy five-digit
attempt first, then the four-digit one. -/
def phoneTail (cs : List Char) : Bool :=
  (match takeDigits 5 cs with
   | some r => phoneEnd r
   | none => false) ||
  (match takeDigits 4 cs with
   | some r => phoneEnd r
   | none => false)

/-- `^\(?\d{2}\)?\s?\d{4,5}-?\d{4}$` (`validation_patterns['phone']`). -/
def phoneFullMatch (cs : List Char) : Bool :=
  match takeDigits 2 (optChar '(' cs) with
  | some r => phoneTail (optSpace (optChar ')' r))
  | none => false

def emailLocalChar (c : Char) : Bool :=
  c.isAlphanum || c = '.' || c = '_' || c = '%' || c = '+' || c = '-'

def emailDomChar (c : Char) : Bool := c.isAlphanum || c = '.' || c = '-'

/-- The tail class `[A-Z|a-z]` (the `|` is a literal inside the class). -/
def emailTldChar (c : Char) : Bool := c.isAlpha || c = '|'

/-- `^[A-Za-z0-9._%+-]+@[A-Za-z0-9.-]+\.[A-Z|a-z]{2,}$`
(`validation_patterns['email']`, IGNORECASE is absorbed by the classes).  The
local part is the run up to the first `@`; the split of the domain at its
final literal dot is found by trying every dot position. -/
def emailFullMatch (cs : List Char) : Bool :=
  let loc := cs.takeWhile emailLocalChar
  match cs.dropWhile emailLocalChar with
  | '@' :: dom =>
    decide (1 ≤ loc.length) &&
      (List.range dom.length).any (fun k =>
        dom.get? k = some '.' && decide (1 ≤ k) && (dom.take k).all emailDomChar &&
          (let tld := dom.drop (k + 1)
           decide (2 ≤ tld.length) && tld.all emailTldChar))
  | _ => false

/-! ### Scorer/Validator (`scorer_validator.py`) -/

/-- The closed set of Brazilian state (UF) codes shared by
`ScorerValidator.uf_set` and the decision engine's override. -/
def uf_set : List String :=
  ["AC", "AL", "AP", "AM", "BA", "CE", "DF", "ES", "GO", "MA", "MT", "MS", "MG",
   "PA", "PB", "PR", "PE", "PI", "RJ", "RN", "RS", "RO", "RR", "SC", "SP", "SE", "TO"]

/-- A candidate dictionary as produced by the candidate generator.  `pattern`
and `match_type` are present on regex candidates, `similarity` on semantic
ones; `candidate.get('similarity', 0.0)` is `(similarity.getD 0)`. -/
structure Cand where
  text : String
  normalized : String
  bbox : ℚ × ℚ × ℚ × ℚ
  score : ℚ
  method : String
  pattern : Option String
  match_type : Option String
  similarity : Option ℚ
  deriving DecidableEq, Repr

/-- `ScorerValidator._validate_value`: the `if` bodies all `return`, so the
branches form an if/else chain over field-name substrings. -/
def validate_value (text field_name field_description : String) : ℚ :=
  let text_lower := pyStripList (pyLowerList text.data)
  let _ := field_description
  if text_lower.isEmpty then 0
  else
    let fl := pyLowerStr field_name
    if strContains fl "cpf" then
      (if (text.data.filter Char.isDigit).length = 11 then 1 else mkRat 3 10)
    else if strContains fl "cnpj" then
      (if (text.data.filter Char.isDigit).length = 14 then 1 else mkRat 3 10)
    else if strContains fl "cep" then
      (if (cepSearch text.data).isSome then 1 else mkRat 3 10)
    else if strContains fl "estado" || strContains fl "uf" || strContains fl "state" then
      (if uf_set.contains (String.mk (pyUpperList (pyStripList text.data))) then 1 else mkRat 3 10)
    else if strContains fl "cidade" || strContains fl "city" then
      (if cityShape (pyStripList text.data) && decide (3 ≤ (pyStripList text.data).length)
       then mkRat 9 10 else mkRat 3 10)
    else if strContains fl "endereco" || strContains fl "endereço" || strContains fl "address" then
      (if streetSearch streetWordsOptDot text_lower && numberTokenSearch text_lower
       then mkRat 9 10 else mkRat 3 10)
    else if strContains fl "email" || strContains fl "e-mail" then
      (if emailLoose text.data then 1 else mkRat 3 10)
    else if strContains fl "data" || strContains fl "date" then
      (if dateShapeAtStart text.data then 1 else mkRat 3 10)
    else mkRat 6 10

/-- The `validation_patterns` dictionary in insertion order. -/
def validation_pattern_names : List String := ["cpf", "cnpj", "email", "phone", "date", "cep"]

def patternFullMatch (pattern_type : String) (cs : List Char) : Bool :=
  if pattern_type = "cpf" then cpfFullMatch cs
  else if pattern_type = "cnpj" then cnpjFullMatch cs
  else if pattern_type = "email" then emailFullMatch cs
  else if pattern_type = "phone" then phoneFullMatch cs
  else if pattern_type = "date" then dateFullSepMatch cs
  else if pattern_type = "cep" then cepFullMatch cs
  else false

/-- `ScorerValidator._regex_validation`: the first pattern whose name occurs in
the field name or description *and* matches the normalized text returns 1.0;
otherwise regex-method candidates get 0.8 and the rest 0.5. -/
def regex_validation (candidate : Cand) (field_name field_description : String) : ℚ :=
  let fl := pyLowerStr field_name
  let dl := pyLowerStr field_description
  match validation_pattern_names.find?
      (fun pt => (strContains fl pt || strContains dl pt) &&
        patternFullMatch pt candidate.normalized.data) with
  | some _ => 1
  | none => if candidate.method = "regex" then mkRat 8 10 else mkRat 5 10

/-- `ScorerValidator._positional_score` (the document context is unused by the
source as well). -/
def positional_score (candidate : Cand) (all_candidates : List Cand) : ℚ :=
  if 0 < all_candidates.length ∧ all_candidates.get? 0 = some candidate then mkRat 7 10 else mkRat 5 10

/-- The semantic component of `score_candidate` (lines 49–53): the raw
similarity is rescaled to `[0,1]` only when it is strictly positive; an absent
similarity defaults to 0. -/
def semantic_component (similarity : Option ℚ) : ℚ :=
  let s := similarity.getD 0
  if 0 < s then max 0 (min 1 ((s + 1) / 2)) else s

/-- `ScorerValidator.score_candidate`: the weighted sum of the five
sub-scores, clipped to `[0,1]`. -/
def score_candidate (candidate : Cand) (field_name field_description : String)
    (all_candidates : List Cand) : ℚ :=
  let base_score := candidate.score
  let regex_score := regex_validation candidate field_name field_description
  let semantic_score := semantic_component candidate.similarity
  let positional := positional_score candidate all_candidates
  let validation := validate_value candidate.text field_name field_description
  min 1 (max 0 (mkRat 2 10 * base_score + mkRat 25 100 * regex_score +
    mkRat 25 100 * semantic_score + mkRat 15 100 * positional + mkRat 15 100 * validation))

/-- A candidate annotated with its `final_score` (the dictionary copy made by
`select_best_candidate`). -/
structure ScoredCand where
  cand : Cand
  final_score : ℚ
  deriving DecidableEq, Repr

/-- `ScorerValidator.select_best_candidate`: score every candidate and return
the first one attaining the maximal final score (Python's `max`). -/
def select_best_candidate (candidates : List Cand) (field_name field_description : String) :
    Option ScoredCand :=
  match candidates.map
      (fun c => ScoredCand.mk c (score_candidate c field_name field_description candidates)) with
  | [] => none
  | c :: cs =>
    some (cs.foldl (fun best x => if best.final_score < x.final_score then x else best) c)

/-! ### Decision engine (`decision_engine.py` with `config.py` thresholds) -/

/-- `config.T_HIGH = 0.85` (`mkRat` keeps the constant kernel-reducible). -/
def T_HIGH : ℚ := mkRat 85 100

/-- `config.T_LOW = 0.60`. -/
def T_LOW : ℚ := mkRat 60 100

/-- `DecisionEngine._deterministic_accept`.  Branches whose body does not
unconditionally `return` fall through to the next test, which the else-if
chain reproduces by conjoining the branch guard with its inner condition. -/
def deterministic_accept (field_name value : String) : Bool :=
  let fl := pyLowerStr field_name
  if strContains fl "cpf" then
    decide ((value.data.filter Char.isDigit).length = 11)
  else if (strContains fl "data" || strContains fl "date") &&
      dateShapeAnchored (pyStripList value.data) then true
  else if strContains fl "cep" then
    (cepSearch (pyStripList value.data)).isSome
  else if (strContains fl "estado" || strContains fl "uf" || strContains fl "state") &&
      uf_set.contains (String.mk (pyUpperList (pyStripList value.data))) then true
  else if (strContains fl "endereco" || strContains fl "endereço" || strContains fl "address") &&
      streetSearch streetWordsDot (pyLowerList value.data) &&
      numberTokenSearch (pyLowerList value.data) then true
  else false

/-- `XXX.XXX.XXX-XX` from an 11-digit list. -/
def fmtCpf (d : List Char) : List Char :=
  d.take 3 ++ '.' :: (d.drop 3).take 3 ++ '.' :: (d.drop 6).take 3 ++ '-' :: d.drop 9

/-- `XX.XXX.XXX/XXXX-XX` from a 14-digit list. -/
def fmtCnpj (d : List Char) : List Char :=
  d.take 2 ++ '.' :: (d.drop 2).take 3 ++ '.' :: (d.drop 5).take 3 ++
    '/' :: (d.drop 8).take 4 ++ '-' :: d.drop 12

/-- `XXXXX-XXX` from an 8-digit list. -/
def fmtCep (d : List Char) : List Char := d.take 5 ++ '-' :: d.drop 5

/-- Case-insensitive literal keyword at the start; returns the remainder. -/
def kwLitCI (text kw : List Char) : Option (List Char) :=
  if (text.take kw.length).map Char.toLower = kw then some (text.drop kw.length) else none

/-- `\s*:\s*`: optional whitespace, a colon, optional whitespace. -/
def colonTail (cs : List Char) : Option (List Char) :=
  match cs.dropWhile pySpace with
  | ':' :: rest => some (rest.dropWhile pySpace)
  | _ => none

/-- The optional group `\s+de\s+nascimento` of the date-label pattern. -/
def deNasc (cs : List Char) : Option (List Char) :=
  if (cs.takeWhile pySpace).isEmpty then none
  else
    match kwLitCI (cs.dropWhile pySpace) "de".data with
    | none => none
    | some r =>
      if (r.takeWhile pySpace).isEmpty then none
      else kwLitCI (r.dropWhile pySpace) "nascimento".data

/-- `re.sub(r'^(?:nascimento|data(?:\s+de\s+nascimento)?|date)\s*:\s*', '', ·,
flags=IGNORECASE)`: drop the matched label prefix if any alternative (tried in
order, the optional group greedily) matches. -/
def stripDateLabel (text : List Char) : List Char :=
  match (kwLitCI text "nascimento".data).bind colonTail with
  | some r => r
  | none =>
    match (kwLitCI text "data".data).bind
        (fun rest =>
          match (deNasc rest).bind colonTail with
          | some r => some r
          | none => colonTail rest) with
    | some r => r
    | none =>
      match (kwLitCI text "date".data).bind colonTail with
      | some r => r
      | none => text

/-- `re.sub(r'^[A-Za-zÀ-ÿ]+\s*:\s*', '', ·)`: drop a leading single-word label
followed by a colon. -/
def stripGenericLabel (text : List Char) : List Char :=
  if (text.takeWhile latinLetter).isEmpty then text
  else
    match colonTail (text.dropWhile latinLetter) with
    | some r => r
    | none => text

def parseNatDigits (d : List Char) : Nat :=
  d.foldl (fun n c => n * 10 + (c.toNat - 48)) 0

/-- `str.zfill(2)` for the one-or-two digit day/month groups. -/
def zfill2 (d : List Char) : List Char :=
  if d.length = 1 then '0' :: d else d

/-- The `cpf` branch of `_normalize_value` (returns only when the digit count
is exactly 11; otherwise control falls through). -/
def tryCpf (fl : String) (normalized : List Char) : Option (List Char) :=
  if strContains fl "cpf" then
    let digits := normalized.filter Char.isDigit
    if digits.length = 11 then some (fmtCpf digits) else none
  else none

/-- The `cnpj` branch of `_normalize_value`. -/
def tryCnpj (fl : String) (normalized : List Char) : Option (List Char) :=
  if strContains fl "cnpj" then
    let digits := normalized.filter Char.isDigit
    if digits.length = 14 then some (fmtCnpj digits) else none
  else none

/-- The date branch of `_normalize_value`: dashes become slashes, the value is
stripped, label prefixes are removed, and a `D/M/Y` match is zero-padded with
the two-digit-year rule `y ≤ 50 → 20YY, else 19YY`. -/
def tryDate (fl : String) (normalized : List Char) : Option (List Char) :=
  if strContains fl "data" || strContains fl "date" || strContains fl "data_nascimento" ||
      strContains fl "nascimento" then
    let text := pyStripList (normalized.map (fun c => if c = '-' then '/' else c))
    let text := stripDateLabel text
    let text := stripGenericLabel text
    match dateMatchSlash text with
    | some (d, m, y) =>
      let day := zfill2 d
      let month := zfill2 m
      let year :=
        if y.length = 4 then y
        else if parseNatDigits y ≤ 50 then '2' :: '0' :: y else '1' :: '9' :: y
      some (day ++ '/' :: month ++ '/' :: year)
    | none => none
  else none

/-- The `cep` branch of `_normalize_value`: an embedded CEP token is
reformatted; failing that, a value of exactly 8 digits is formatted; failing
that, control falls through. -/
def tryCep (fl : String) (normalized : List Char) : Option (List Char) :=
  if strContains fl "cep" then
    match cepSearch normalized with
    | some tok => some (fmtCep (tok.filter Char.isDigit))
    | none =>
      let digits := normalized.filter Char.isDigit
      if digits.length = 8 then some (fmtCep digits) else none
  else none

/-- The state/UF branch of `_normalize_value`: `normalized.upper()[:2]`,
returned unconditionally. -/
def tryUf (fl : String) (normalized : List Char) : Option (List Char) :=
  if strContains fl "estado" || strContains fl "uf" || strContains fl "state" then
    some ((pyUpperList normalized).take 2)
  else none

/-- The address branch of `_normalize_value`: the whitespace-collapsed value,
returned unconditionally. -/
def tryAddr (fl : String) (normalized : List Char) : Option (List Char) :=
  if strContains fl "endereco" || strContains fl "endereço" || strContains fl "address" then
    some normalized
  else none

/-- `DecisionEngine._normalize_value`. -/
def normalize_value (value field_name : String) : String :=
  let normalized := joinSplit value.data
  let fl := pyLowerStr field_name
  match tryCpf fl normalized with
  | some r => String.mk r
  | none =>
    match tryCnpj fl normalized with
    | some r => String.mk r
    | none =>
      match tryDate fl normalized with
      | some r => String.mk r
      | none =>
        match tryCep fl normalized with
        | some r => String.mk r
        | none =>
          match tryUf fl normalized with
          | some r => String.mk r
          | none =>
            match tryAddr fl normalized with
            | some r => String.mk r
            | none => String.mk normalized

/-- `DecisionEngine._normalize_with_mini_model`: the format-hint inspection of
the description is a `pass`, so this is `_normalize_value`. -/
def normalize_with_mini_model (value field_name field_description : String) : String :=
  let normalized := normalize_value value field_name
  let _desc_lower := pyLowerStr field_description
  normalized

/-- The per-field loop of `DecisionEngine.process_extraction`: accepted fields
(in iteration order) on the left, pending field names on the right. -/
def processFields (extraction_schema : List (String × String)) :
    List (String × Option ScoredCand) → List (String × String) × List String
  | [] => ([], [])
  | (f, none) :: rest =>
    let r := processFields extraction_schema rest
    (r.1, f :: r.2)
  | (f, some c) :: rest =>
    let r := processFields extraction_schema rest
    if T_HIGH ≤ c.final_score then
      ((f, normalize_value c.cand.text f) :: r.1, r.2)
    else if T_LOW ≤ c.final_score then
      ((f, normalize_with_mini_model c.cand.text f
        ((extraction_schema.lookup f).getD "")) :: r.1, r.2)
    else if deterministic_accept f c.cand.text then
      ((f, normalize_value c.cand.text f) :: r.1, r.2)
    else (r.1, f :: r.2)

/-! ### Fallback client (`llm_client.py`) -/

/-- `LLMClient.extract_fields`.  `resp` is the parsed JSON object returned by
the reasoning service for this call (`none` models any exception inside the
`try`, including the network call itself).  On success every requested field
missing from the response is filled with the empty string; on failure every
requested field maps to the empty string. -/
def extract_fields (fields : List (String × String))
    (resp : Option (List (String × String))) : List (String × String) :=
  match resp with
  | none => fields.map (fun fd => (fd.1, ""))
  | some results =>
    results ++ (fields.filter (fun fd => (results.lookup fd.1).isNone)).map (fun fd => (fd.1, ""))

/-- `DecisionEngine._call_llm`.  The dictionary comprehension
`{field: extraction_schema[field] for field in pending_fields}` raises
`KeyError` (modelled by `none`) when a pending field is not a schema key; the
prompt payload (label, text snippet, context) does not influence the modelled
response. -/
def call_llm (pending_fields : List String) (extraction_schema : List (String × String))
    (resp : Option (List (String × String))) : Option (List (String × String)) :=
  if pending_fields.all (fun f => (extraction_schema.lookup f).isSome) then
    some (extract_fields
      (pending_fields.map (fun f => (f, (extraction_schema.lookup f).getD ""))) resp)
  else none

/-- `dict.update`: existing keys are overwritten in place, new keys are
appended in the update's order. -/
def dictUpdate (base upd : List (String × String)) : List (String × String) :=
  base.map (fun kv => (kv.1, (upd.lookup kv.1).getD kv.2)) ++
    upd.filter (fun kv => (base.lookup kv.1).isNone)

/-- `DecisionEngine.process_extraction`.  The returned `Nat` counts the
invocations of the fallback client in the call; `none` models the `KeyError`
described at `call_llm` (in which case the fallback was never reached). -/
def process_extraction (field_results : List (String × Option ScoredCand))
    (_label : String) (extraction_schema : List (String × String))
    (_document_full_text : String) (resp : Option (List (String × String))) :
    Option (List (String × String) × Nat) :=
  let fp := processFields extraction_schema field_results
  if fp.2.isEmpty then some (fp.1, 0)
  else (call_llm fp.2 extraction_schema resp).map (fun llm_results => (dictUpdate fp.1 llm_results, 1))

/-! ### Candidate generator (`candidate_generator.py`)

`re.finditer` and the sentence-embedding cosine similarity are external
collaborators, abstracted as oracles.  The regex pattern texts are kept
verbatim (with `\x7b`/`\x7d` escapes for the repetition braces) because the
generator stores them in the candidate and hands them to the oracle. -/

/-- One `re` match object: the full matched text and the named groups. -/
structure RegexMatch where
  matched : String
  groups : List (String × String)
  deriving DecidableEq, Repr

/-- Oracle for `re.finditer(pattern, text, re.IGNORECASE)`. -/
def RegexOracle : Type := String → String → List RegexMatch

/-- Oracle for the cosine similarity of the embeddings of two texts (the
embedding service is deterministic, so a pure function suffices; the
process-lifetime label-embedding cache is therefore observationally
irrelevant). -/
def SimOracle : Type := String → String → ℚ

def uf_codes_alt : String :=
  "(?:AC|AL|AP|AM|BA|CE|DF|ES|GO|MA|MT|MS|MG|PA|PB|PR|PE|PI|RJ|RN|RS|RO|RR|SC|SP|SE|TO)"

def street_types_alt : String :=
  "(?:rua|avenida|av\\.?|travessa|alameda|rodovia|rod\\.?|estrada|praça|praca|largo)"

def cpfPat : String := "\\d\x7b3\x7d\\.?\\d\x7b3\x7d\\.?\\d\x7b3\x7d-?\\d\x7b2\x7d"

def cnpjPat : String := "\\d\x7b2\x7d\\.?\\d\x7b3\x7d\\.?\\d\x7b3\x7d/?\\d\x7b4\x7d-?\\d\x7b2\x7d"

def emailPat : String := "\\b[A-Za-z0-9._%+-]+@[A-Za-z0-9.-]+\\.[A-Z|a-z]\x7b2,\x7d\\b"

def phonePat : String := "\\(?\\d\x7b2\x7d\\)?\\s?\\d\x7b4,5\x7d-?\\d\x7b4\x7d"

def cepPat : String := "\\b\\d\x7b5\x7d-?\\d\x7b3\x7d\\b"

def ufPat : String := "\\b" ++ uf_codes_alt ++ "\\b"

def cityStatePat : String :=
  "(?P<city>[A-Za-zÀ-ÿ]+(?:\\s+[A-Za-zÀ-ÿ]+)*)\\s*[,\\-]\\s*(?P<state>" ++ uf_codes_alt ++ ")"

def addrPat : String :=
  "(?P<address>\\b" ++ street_types_alt ++ "\\s+[\\wÀ-ÿ\\.\\- ]+?\\s*,?\\s*\\d+[\\w\\-\\/]*?)"

def addrCepPat : String := addrPat ++ ".*?\\b\\d\x7b5\x7d-?\\d\x7b3\x7d\\b"

def dateSlashPat : String := "\\d\x7b1,2\x7d/\\d\x7b1,2\x7d/\\d\x7b2,4\x7d"

def dateDashPat : String := "\\d\x7b1,2\x7d-\\d\x7b1,2\x7d-\\d\x7b2,4\x7d"

def currencyPat : String := "R\\$\\s?\\d+[.,]\\d\x7b2\x7d"

def numDecimalPat : String := "\\d+[.,]\\d\x7b2\x7d"

def digitsPat : String := "\\d+"

/-- `CandidateGenerator._get_regex_patterns`: the catalog entries selected by
substring tests on the lower-cased field name and description, in source
order. -/
def get_regex_patterns (field_name field_description : String) : List (String × String) :=
  let fl := pyLowerStr field_name
  let dl := pyLowerStr field_description
  (if strContains fl "cpf" || strContains dl "cpf" then [(cpfPat, "cpf")] else []) ++
  (if strContains fl "cnpj" then [(cnpjPat, "cnpj")] else []) ++
  (if strContains fl "email" || strContains dl "e-mail" then [(emailPat, "email")] else []) ++
  (if strContains fl "telefone" || strContains fl "phone" || strContains fl "celular" then
    [(phonePat, "phone")] else []) ++
  (if strContains fl "cep" || strContains dl "cep" || strContains dl "postal" then
    [(cepPat, "cep")] else []) ++
  (if strContains fl "estado" || strContains fl "uf" || strContains fl "state" then
    [(ufPat, "state")] else []) ++
  (if strContains fl "cidade" || strContains fl "city" then
    [(cityStatePat, "city_state")] else []) ++
  (if strContains fl "endereco" || strContains fl "endereço" || strContains fl "address" then
    [(addrPat, "address"), (addrCepPat, "address")] else []) ++
  (if strContains fl "data" || strContains fl "date" || strContains fl "nascimento" then
    [(dateSlashPat, "date"), (dateDashPat, "date")] else []) ++
  (if strContains fl "valor" || strContains fl "preço" || strContains fl "money" then
    [(currencyPat, "currency"), (numDecimalPat, "number")] else []) ++
  (if strContains fl "numero" || strContains fl "número" || strContains fl "number" then
    [(digitsPat, "number")] else [])

/-- A normalized fragment as stored in `processed_blocks` (the md5
`create_block_hash` digest is write-only — nothing in the pipeline reads it —
so it is not carried in the model). -/
structure ProcessedBlock where
  original : TextBlock
  normalized : String
  tokens : List String
  bbox : ℚ × ℚ × ℚ × ℚ
  font : Option String
  size : Option ℚ
  deriving DecidableEq, Repr

structure ProcessedData where
  processed_blocks : List ProcessedBlock
  groups : List (List TextBlock)
  group_texts : List String
  full_text : String
  normalized_full_text : String
  deriving Repr

/-- `Preprocessor.extract_features`. -/
def extract_features (blocks : List TextBlock) : ProcessedData :=
  { processed_blocks := blocks.map (fun b =>
      { original := b
        normalized := normalize_text b.text
        tokens := tokenize b.text
        bbox := b.bbox
        font := b.font
        size := b.size })
    groups := group_blocks blocks 20
    group_texts := (group_blocks blocks 20).map (fun g => spaceJoin (g.map TextBlock.text))
    full_text := spaceJoin (blocks.map TextBlock.text)
    normalized_full_text := normalize_text (spaceJoin (blocks.map TextBlock.text)) }

/-- The named-group selection of `_regex_candidates` (lines 87–100): a field
of the matching kind takes the corresponding named group instead of the whole
match. -/
def selectGroupText (field_name : String) (m : RegexMatch) : String :=
  let fl := pyLowerStr field_name
  let names := m.groups.map Prod.fst
  if names.contains "city" && (strContains fl "cidade" || strContains fl "city") then
    (m.groups.lookup "city").getD m.matched
  else if names.contains "state" &&
      (strContains fl "estado" || strContains fl "uf" || strContains fl "state") then
    (m.groups.lookup "state").getD m.matched
  else if names.contains "address" &&
      (strContains fl "endereco" || strContains fl "endereço" || strContains fl "address") then
    (m.groups.lookup "address").getD m.matched
  else m.matched

/-- Substring containment on character lists (`matched_text.lower() in
block_info['normalized']`). -/
def isSubListOf (sub l : List Char) : Bool :=
  (List.range (l.length + 1)).any (fun i => decide (((l.drop i).take sub.length) = sub))

/-- `CandidateGenerator._regex_candidates`: every oracle match anchored to the
first processed block whose normalized text contains it; unanchored matches
are dropped. -/
def regex_candidates (find : RegexOracle) (pd : ProcessedData)
    (field_name field_description : String) : List Cand :=
  (get_regex_patterns field_name field_description).flatMap (fun pm =>
    (find pm.1 pd.normalized_full_text).filterMap (fun m =>
      let matched_text := selectGroupText field_name m
      (pd.processed_blocks.find?
          (fun bi => isSubListOf (pyLowerStr matched_text).data bi.normalized.data)).map
        (fun bi =>
          { text := matched_text
            normalized := normalize_text matched_text
            bbox := bi.bbox
            score := mkRat 4 10
            method := "regex"
            pattern := some pm.1
            match_type := some pm.2
            similarity := none })))

def valAt (vals : List ℚ) (i : Nat) : ℚ := (vals.get? i).getD 0

def argInsert (vals : List ℚ) (i : Nat) : List Nat → List Nat
  | [] => [i]
  | j :: js => if decide (valAt vals i < valAt vals j) then i :: j :: js else j :: argInsert vals i js

/-- `np.argsort` (ascending index order; ties keep index order, a fixed choice
for the unspecified tie behaviour of the unstable sort). -/
def argsortAsc (vals : List ℚ) : List Nat :=
  (List.range vals.length).foldl (fun acc i => argInsert vals i acc) []

/-- `CandidateGenerator._semantic_search`: combined score
`0.7·cos(query, block) + 0.3·cos(label, block)`, descending top-`k`. -/
def semantic_search (sim : SimOracle) (pd : ProcessedData)
    (field_name field_description label : String) (top_k : Nat) : List Cand :=
  let query_text := field_name ++ " " ++ field_description
  let pbs := pd.processed_blocks
  if pbs.isEmpty then []
  else
    let sims := pbs.map (fun b => sim b.normalized query_text)
    let label_sims := pbs.map (fun b => sim b.normalized label)
    let combined := List.zipWith (fun s ls => mkRat 7 10 * s + mkRat 3 10 * ls) sims label_sims
    let top_indices := ((argsortAsc combined).reverse).take top_k
    top_indices.filterMap (fun idx =>
      (pbs.get? idx).bind (fun bi =>
        (combined.get? idx).bind (fun csc =>
          (sims.get? idx).map (fun simv =>
            { text := bi.original.text
              normalized := bi.normalized
              bbox := bi.bbox
              score := csc
              method := "semantic"
              pattern := none
              match_type := none
              similarity := some simv }))))

/-- One step of `_deduplicate_candidates`: a new normalized key is appended;
an existing key is overwritten in place when the newcomer scores strictly
higher. -/
def dedupInsert (seen : List (String × Cand)) (c : Cand) : List (String × Cand) :=
  match seen.lookup c.normalized with
  | none => seen ++ [(c.normalized, c)]
  | some old =>
    if decide (old.score < c.score) then
      seen.map (fun kv => if kv.1 = c.normalized then (kv.1, c) else kv)
    else seen

/-- `CandidateGenerator._deduplicate_candidates` (`dict` values in key
insertion order). -/
def deduplicate_candidates (cands : List Cand) : List Cand :=
  (cands.foldl dedupInsert []).map Prod.snd

/-- Stable insertion for `sorted(..., key=score, reverse=True)`: a later
candidate passes an earlier one only with a strictly higher score. -/
def candInsertDesc (c : Cand) : List Cand → List Cand
  | [] => [c]
  | x :: xs => if decide (x.score < c.score) then c :: x :: xs else x :: candInsertDesc c xs

def sortByScoreDesc (l : List Cand) : List Cand :=
  l.foldl (fun acc c => candInsertDesc c acc) []

/-- `CandidateGenerator.generate_candidates` (default `top_k = 5` at the call
site). -/
def generate_candidates (find : RegexOracle) (sim : SimOracle) (pd : ProcessedData)
    (label : String) (extraction_schema : List (String × String)) (top_k : Nat) :
    List (String × List Cand) :=
  extraction_schema.map (fun fd =>
    (fd.1, (sortByScoreDesc (deduplicate_candidates
      (regex_candidates find pd fd.1 fd.2 ++
        semantic_search sim pd fd.1 fd.2 label top_k))).take top_k))

/-! ### Orchestrator (`extractor.py`) -/

/-- Step 4 of `PDFExtractor.extract`: one best candidate (or `None`) per
field.  `extraction_schema[field_name]` cannot miss because the candidate keys
are the schema keys. -/
def field_results_of (find : RegexOracle) (sim : SimOracle) (label : String)
    (extraction_schema : List (String × String)) (blocks : List TextBlock) :
    List (String × Option ScoredCand) :=
  let pd := extract_features blocks
  (generate_candidates find sim pd label extraction_schema 5).map (fun fc =>
    (fc.1, select_best_candidate fc.2 fc.1 ((extraction_schema.lookup fc.1).getD "")))

/-- `PDFExtractor.extract` from the parsed text blocks onward (the re-assigned
`processed_data['full_text']` equals the value `extract_features` already
computed). -/
def extract_from_blocks (find : RegexOracle) (sim : SimOracle) (label : String)
    (extraction_schema : List (String × String)) (blocks : List TextBlock)
    (resp : Option (List (String × String))) : Option (List (String × String) × Nat) :=
  process_extraction (field_results_of find sim label extraction_schema blocks)
    label extraction_schema (extract_features blocks).full_text resp

/-- `PDFExtractor.extract` including the text-extraction step:
`parse_result = none` models `TextExtractor.extract` raising (both parsers
failed), which propagates and aborts the call;  `some blocks` is its returned
fragment list, which may be empty. -/
def extract (find : RegexOracle) (sim : SimOracle) (label : String)
    (extraction_schema : List (String × String)) (parse_result : Option (List TextBlock))
    (resp : Option (List (String × String))) : Option (List (String × String) × Nat) :=
  parse_result.bind (fun blocks => extract_from_blocks find sim label extraction_schema blocks resp)

/-! ### Association-list lemmas -/

theorem lookup_eq_none_of_not_mem_keys {α : Type} (l : List (String × α)) (f : String)
    (h : f ∉ l.map Prod.fst) : l.lookup f = none := by
  induction l with
  | nil => rfl
  | cons kv t ih =>
    obtain ⟨k, v⟩ := kv
    simp only [List.map_cons, List.mem_cons, not_or] at h
    have hbeq : (f == k) = false := beq_eq_false_iff_ne.mpr h.1
    simp [List.lookup, hbeq, ih h.2]

theorem lookup_isSome_of_mem_keys {α : Type} (l : List (String × α)) (f : String)
    (h : f ∈ l.map Prod.fst) : ∃ v, l.lookup f = some v := by
  induction l with
  | nil => simp at h
  | cons kv t ih =>
    obtain ⟨k, v⟩ := kv
    by_cases he : f = k
    · exact ⟨v, by simp [List.lookup, he]⟩
    · simp only [List.map_cons, List.mem_cons, he, false_or] at h
      obtain ⟨w, hw⟩ := ih h
      exact ⟨w, by simp [List.lookup, beq_eq_false_iff_ne.mpr he, hw]⟩

theorem lookup_append {α : Type} (l₁ l₂ : List (String × α)) (f : String) :
    (l₁ ++ l₂).lookup f =
      (match l₁.lookup f with
       | some v => some v
       | none => l₂.lookup f) := by
  induction l₁ with
  | nil => simp
  | cons kv t ih =>
    obtain ⟨k, v⟩ := kv
    by_cases he : f = k
    · simp [List.lookup, he]
    · simp [List.lookup, beq_eq_false_iff_ne.mpr he, ih]

theorem lookup_map_withKey {α β : Type} (g : String → α → β) (l : List (String × α)) (f : String) :
    (l.map (fun kv => (kv.1, g kv.1 kv.2))).lookup f = (l.lookup f).map (g f) := by
  induction l with
  | nil => rfl
  | cons kv t ih =>
    obtain ⟨k, v⟩ := kv
    by_cases he : f = k
    · subst he; simp [List.lookup]
    · simp [List.lookup, beq_eq_false_iff_ne.mpr he, ih]

theorem lookup_filter_key {α : Type} (p : String × α → Bool) (l : List (String × α)) (f : String)
    (hp : ∀ v, p (f, v) = true) : (l.filter p).lookup f = l.lookup f := by
  induction l with
  | nil => rfl
  | cons kv t ih =>
    obtain ⟨k, v⟩ := kv
    by_cases he : f = k
    · have hk : p (k, v) = true := he ▸ hp v
      simp [List.filter_cons, hk, List.lookup, he]
    · by_cases hkv : p (k, v) = true
      · simp [List.filter_cons, hkv, List.lookup, beq_eq_false_iff_ne.mpr he, ih]
      · simp only [List.filter_cons, hkv, if_false, Bool.false_eq_true]
        rw [ih]
        simp [List.lookup, beq_eq_false_iff_ne.mpr he]

/-! ### Characterising the decision engine's per-field routing -/

/-- A field result is routed to the fallback batch exactly when it is Absent,
or its score is below `T_LOW` and the deterministic override fails. -/
def isPendingEntry (e : String × Option ScoredCand) : Bool :=
  match e.2 with
  | none => true
  | some c => decide (c.final_score < T_LOW) && ! deterministic_accept e.1 c.cand.text

theorem not_lt_tlow_of_thigh_le (q : ℚ) (h : T_HIGH ≤ q) : ¬ q < T_LOW := by
  rw [T_HIGH, Rat.mkRat_eq_div] at h
  rw [T_LOW, Rat.mkRat_eq_div]
  intro hc
  norm_num at h hc
  linarith

theorem processFields_pending (extraction_schema : List (String × String)) :
    ∀ frs, (processFields extraction_schema frs).2 = (frs.filter isPendingEntry).map Prod.fst := by
  intro frs
  induction frs with
  | nil => rfl
  | cons e rest ih =>
    obtain ⟨f, oc⟩ := e
    match oc with
    | none => simp [processFields, isPendingEntry, List.filter_cons, ih]
    | some c =>
      by_cases h1 : T_HIGH ≤ c.final_score
      · have hlt := not_lt_tlow_of_thigh_le c.final_score h1
        simp [processFields, h1, isPendingEntry, List.filter_cons, hlt, ih]
      · by_cases h2 : T_LOW ≤ c.final_score
        · have hlt : ¬ c.final_score < T_LOW := not_lt.mpr h2
          simp [processFields, h1, h2, isPendingEntry, List.filter_cons, hlt, ih]
        · have hlt : c.final_score < T_LOW := not_le.mp h2
          by_cases h3 : deterministic_accept f c.cand.text = true
          · simp [processFields, h1, h2, h3, isPendingEntry, List.filter_cons, hlt, ih]
          · simp only [Bool.not_eq_true] at h3
            simp [processFields, h1, h2, h3, isPendingEntry, List.filter_cons, hlt, ih]

theorem processFields_vals_keys (extraction_schema : List (String × String)) :
    ∀ frs, (processFields extraction_schema frs).1.map Prod.fst =
      (frs.filter (fun e => ! isPendingEntry e)).map Prod.fst := by
  intro frs
  induction frs with
  | nil => rfl
  | cons e rest ih =>
    obtain ⟨f, oc⟩ := e
    match oc with
    | none => simp [processFields, isPendingEntry, List.filter_cons, ih]
    | some c =>
      by_cases h1 : T_HIGH ≤ c.final_score
      · have hlt := not_lt_tlow_of_thigh_le c.final_score h1
        simp [processFields, h1, isPendingEntry, List.filter_cons, hlt, ih]
      · by_cases h2 : T_LOW ≤ c.final_score
        · have hlt : ¬ c.final_score < T_LOW := not_lt.mpr h2
          simp [processFields, h1, h2, isPendingEntry, List.filter_cons, hlt, ih]
        · have hlt : c.final_score < T_LOW := not_le.mp h2
          by_cases h3 : deterministic_accept f c.cand.text = true
          · simp [processFields, h1, h2, h3, isPendingEntry, List.filter_cons, hlt, ih]
          · simp only [Bool.not_eq_true] at h3
            simp [processFields, h1, h2, h3, isPendingEntry, List.filter_cons, hlt, ih]

theorem mem_keys_of_mem_filter_keys {α : Type} (q : String × α → Bool)
    (l : List (String × α)) (f : String) (h : f ∈ (l.filter q).map Prod.fst) :
    f ∈ l.map Prod.fst := by
  obtain ⟨e, he, hef⟩ := List.mem_map.mp h
  exact List.mem_map.mpr ⟨e, (List.mem_filter.mp he).1, hef⟩

theorem keys_filter_not_both {α : Type} (p : String × α → Bool) :
    ∀ (l : List (String × α)), (l.map Prod.fst).Nodup → ∀ f : String,
      f ∈ (l.filter p).map Prod.fst → f ∈ (l.filter (fun e => ! p e)).map Prod.fst → False := by
  intro l
  induction l with
  | nil => intro _ f h1 _; simp at h1
  | cons e rest ih =>
    intro hnd f h1 h2
    simp only [List.map_cons, List.nodup_cons] at hnd
    by_cases hp : p e = true
    · rw [List.filter_cons, if_pos hp] at h1
      rw [List.filter_cons, if_neg (by simp [hp])] at h2
      rw [List.map_cons] at h1
      rcases List.mem_cons.mp h1 with he | h1r
      · rw [← he] at hnd
        exact hnd.1 (mem_keys_of_mem_filter_keys _ rest f h2)
      · exact ih hnd.2 f h1r h2
    · have hpf : p e = false := by revert hp; cases p e <;> simp
      rw [List.filter_cons, if_neg hp] at h1
      rw [List.filter_cons, if_pos (by simp [hpf])] at h2
      rw [List.map_cons] at h2
      rcases List.mem_cons.mp h2 with he | h2r
      · rw [← he] at hnd
        exact hnd.1 (mem_keys_of_mem_filter_keys _ rest f h1)
      · exact ih hnd.2 f h1 h2r

theorem processFields_vals_lookup_none (extraction_schema : List (String × String))
    (frs : List (String × Option ScoredCand)) (hnd : (frs.map Prod.fst).Nodup)
    (f : String) (hf : f ∈ (processFields extraction_schema frs).2) :
    (processFields extraction_schema frs).1.lookup f = none := by
  apply lookup_eq_none_of_not_mem_keys
  rw [processFields_vals_keys]
  rw [processFields_pending] at hf
  intro hv
  exact keys_filter_not_both isPendingEntry frs hnd f hf hv

/-! ### Sortedness of the block ordering -/

theorem keyLt_iff (p q : ℚ × ℚ) :
    keyLt p q = true ↔ (p.1 < q.1 ∨ (p.1 = q.1 ∧ p.2 < q.2)) := by
  simp [keyLt]

theorem keyLt_asymm (p q : ℚ × ℚ) (h : keyLt p q = true) : keyLt q p = false := by
  rcases (keyLt_iff p q).mp h with h1 | ⟨h1, h2⟩
  · cases hc : keyLt q p
    · rfl
    · rcases (keyLt_iff q p).mp hc with h3 | ⟨h3, _⟩
      · exact absurd h1 (not_lt.mpr h3.le)
      · exact absurd h1 (by rw [h3]; exact lt_irrefl _)
  · cases hc : keyLt q p
    · rfl
    · rcases (keyLt_iff q p).mp hc with h3 | ⟨_, h4⟩
      · exact absurd h3 (by rw [h1]; exact lt_irrefl _)
      · exact absurd h2 (not_lt.mpr h4.le)

theorem keyLt_trans (p q r : ℚ × ℚ) (h1 : keyLt p q = true) (h2 : keyLt q r = true) :
    keyLt p r = true := by
  rcases (keyLt_iff p q).mp h1 with ha | ⟨ha, ha2⟩ <;>
    rcases (keyLt_iff q r).mp h2 with hb | ⟨hb, hb2⟩
  · exact (keyLt_iff p r).mpr (Or.inl (ha.trans hb))
  · exact (keyLt_iff p r).mpr (Or.inl (hb ▸ ha))
  · exact (keyLt_iff p r).mpr (Or.inl (ha ▸ hb))
  · exact (keyLt_iff p r).mpr (Or.inr ⟨ha.trans hb, ha2.trans hb2⟩)

theorem keyLt_false_of_not_true (p q : ℚ × ℚ) (h : ¬ keyLt p q = true) : keyLt p q = false := by
  revert h; cases keyLt p q <;> simp

/-- The reading-order relation established by `pySorted`: the earlier block's
key is never strictly greater. -/
def blockOrdered (u v : TextBlock) : Prop := keyLt (blockKey v) (blockKey u) = false

theorem sortedInsert_pairwise (b : TextBlock) :
    ∀ l : List TextBlock, l.Pairwise blockOrdered →
      (sortedInsert b l).Pairwise blockOrdered := by
  intro l
  induction l with
  | nil => intro _; simp [sortedInsert, List.pairwise_cons]
  | cons x xs ih =>
    intro h
    rcases List.pairwise_cons.mp h with ⟨hx, hxs⟩
    by_cases hk : keyLt (blockKey b) (blockKey x) = true
    · rw [sortedInsert, if_pos hk]
      refine List.pairwise_cons.mpr ⟨?_, h⟩
      intro y hy
      rcases List.mem_cons.mp hy with rfl | hy2
      · exact keyLt_asymm _ _ hk
      · have hyx := hx y hy2
        cases hc : keyLt (blockKey y) (blockKey b)
        · exact hc
        · have := keyLt_trans _ _ _ hc hk
          rw [hyx] at this
          cases this
    · rw [sortedInsert, if_neg hk]
      refine List.pairwise_cons.mpr ⟨?_, ih hxs⟩
      intro y hy
      rcases List.mem_cons.mp ((sortedInsert_perm b xs).mem_iff.mp hy) with rfl | hy2
      · exact keyLt_false_of_not_true _ _ hk
      · exact hx y hy2

theorem pySorted_pairwise (l : List TextBlock) : (pySorted l).Pairwise blockOrdered := by
  suffices h : ∀ (l acc : List TextBlock), acc.Pairwise blockOrdered →
      (l.foldl (fun acc b => sortedInsert b acc) acc).Pairwise blockOrdered by
    exact h l [] List.Pairwise.nil
  intro l
  induction l with
  | nil => intro acc hacc; exact hacc
  | cons b bs ih =>
    intro acc hacc
    exact ih (sortedInsert b acc) (sortedInsert_pairwise b acc hacc)

/-- C10: `group_blocks` partitions its input in reading order: the empty
input yields no groups, the concatenation of the groups is exactly the input
sorted (stably) by the key `(bbox.y0, bbox.x0)` — so every input block lands
in exactly one group — the sorted sequence is a permutation of the input and
is ordered by that key, and no produced group is empty. -/
theorem c10_group_blocks_partition (max_distance : ℚ) :
    group_blocks [] max_distance = [] ∧
    (∀ blocks : List TextBlock,
      (group_blocks blocks max_distance).flatten = pySorted blocks) ∧
    (∀ blocks : List TextBlock, (pySorted blocks).Perm blocks) ∧
    (∀ blocks : List TextBlock, (pySorted blocks).Pairwise blockOrdered) ∧
    (∀ (blocks : List TextBlock) (g : List TextBlock),
      g ∈ group_blocks blocks max_distance → g ≠ []) := by
  refine ⟨rfl, ?_, pySorted_perm, pySorted_pairwise, ?_⟩
  · intro blocks
    unfold group_blocks
    cases h : pySorted blocks with
    | nil => simp
    | cons b bs => simpa using groupLoop_flatten max_distance bs [b]
  · intro blocks g hg
    unfold group_blocks at hg
    cases h : pySorted blocks with
    | nil => rw [h] at hg; simp at hg
    | cons b bs =>
      rw [h] at hg
      exact groupLoop_ne_nil max_distance bs [b] (by simp) g hg

/-- Witness for C10 at a concrete one-block list (`sameGroup` subtraction is
kernel-irreducible, so the witness instantiates the membership hypothesis on a
single-group input). -/
theorem c10_group_blocks_partition_witness :
    (group_blocks [] 20 = []) ∧
    ((group_blocks [TextBlock.mk "a" (0, 0, 5, 5) none none] 20).flatten =
      pySorted [TextBlock.mk "a" (0, 0, 5, 5) none none]) ∧
    ([TextBlock.mk "a" (0, 0, 5, 5) none none] ≠ []) := by
  refine ⟨(c10_group_blocks_partition 20).1, (c10_group_blocks_partition 20).2.1 _, ?_⟩
  exact (c10_group_blocks_partition 20).2.2.2.2 [TextBlock.mk "a" (0, 0, 5, 5) none none]
    [TextBlock.mk "a" (0, 0, 5, 5) none none] (by decide)

/-! ### Claims C4, C7, C5, C3 (counterexample side), C1 -/

/-- C4: the spec requires `normalize_text` to be idempotent, but the code
collapses whitespace *before* deleting disallowed characters, so deleting a
character between two spaces leaves a double space that a second pass then
collapses: `"a ! b"` normalizes to `"a  b"`, which normalizes to `"a b"`.
(The case-insensitivity half of the claim does hold at this input.) -/
theorem c4_normalize_text_not_idempotent_at_failing_input :
    normalize_text "a ! b" = "a  b" ∧
    normalize_text (normalize_text "a ! b") = "a b" ∧
    normalize_text "a ! b" ≠ normalize_text (normalize_text "a ! b") ∧
    normalize_text "A ! B" = normalize_text "a ! b" := by decide

/-- C7: postal-code round trip through `_normalize_value` on a `cep` field:
the canonical form is unchanged and the 8-raw-digit form gains its dash. -/
theorem c7_cep_normalization_round_trip :
    normalize_value "01310-100" "cep" = "01310-100" ∧
    normalize_value "01310100" "cep" = "01310-100" := by decide

/-- C5 counterexample: a computed raw similarity of `-1/2` is *not* rescaled
to `((-1/2)+1)/2 = 1/4`; the guard `if semantic_score > 0` skips the rescale
and the raw negative value flows into the weighted sum. -/
theorem c5_semantic_rescale_counterexample :
    semantic_component (some (-(1 : ℚ)/2)) = -(1 : ℚ)/2 ∧
    ((-(1 : ℚ)/2) + 1) / 2 = (1 : ℚ)/4 ∧
    semantic_component (some (-(1 : ℚ)/2)) ≠ ((-(1 : ℚ)/2) + 1) / 2 := by
  have h1 : semantic_component (some (-(1 : ℚ)/2)) = -(1 : ℚ)/2 := by
    unfold semantic_component
    simp only [Option.getD_some]
    rw [if_neg (by norm_num)]
  refine ⟨h1, by norm_num, ?_⟩
  rw [h1]
  norm_num

/-- C5 amended: the semantic sub-score is 0 when no similarity was computed,
equals the rescaled `(s+1)/2` only for a *strictly positive* computed
similarity (where the `[0,1]` clamp is inert for `s ≤ 1`), and equals the raw
similarity itself — negative values included — when `s ≤ 0`. -/
theorem c5_semantic_component_amended (s : ℚ) :
    semantic_component none = 0 ∧
    (0 < s → s ≤ 1 → semantic_component (some s) = (s + 1) / 2) ∧
    (s ≤ 0 → semantic_component (some s) = s) := by
  refine ⟨rfl, ?_, ?_⟩
  · intro h1 h2
    unfold semantic_component
    simp only [Option.getD_some]
    rw [if_pos h1]
    have hle : (s + 1) / 2 ≤ 1 := by linarith
    have hge : 0 ≤ (s + 1) / 2 := by linarith
    rw [min_eq_right hle, max_eq_right hge]
  · intro h
    unfold semantic_component
    simp only [Option.getD_some]
    rw [if_neg (not_lt.mpr h)]

/-- Witness for C5's amended statement at `s = 1/2` and `s = -1/4`. -/
theorem c5_semantic_component_amended_witness :
    semantic_component (some ((1 : ℚ)/2)) = ((1 : ℚ)/2 + 1) / 2 ∧
    semantic_component (some (-(1 : ℚ)/4)) = -(1 : ℚ)/4 :=
  ⟨(c5_semantic_component_amended ((1 : ℚ)/2)).2.1 (by norm_num) (by norm_num),
   (c5_semantic_component_amended (-(1 : ℚ)/4)).2.2 (by norm_num)⟩

/-- C3 counterexample: a present candidate for field `nome` with
`final_score = 7/10 < 0.85` fails every deterministic override, yet the
engine accepts its text via the mini-model tier and performs **zero** fallback
calls — the claim would route it to the fallback batch. -/
theorem c3_medium_score_counterexample :
    deterministic_accept "nome" "Fulano" = false ∧
    mkRat 7 10 < T_HIGH ∧ T_LOW ≤ mkRat 7 10 ∧
    process_extraction
      [("nome", some (ScoredCand.mk
        (Cand.mk "Fulano" "fulano" (0, 0, 0, 0) 0 "semantic" none none (some 0))
        (mkRat 7 10)))]
      "l" [("nome", "d")] "" none = some ([("nome", "Fulano")], 0) := by decide

/-! The fallback-count claim (C1). -/

theorem any_pending_iff (extraction_schema : List (String × String))
    (frs : List (String × Option ScoredCand)) :
    frs.any isPendingEntry = true ↔ (processFields extraction_schema frs).2 ≠ [] := by
  rw [processFields_pending]
  constructor
  · intro h hnil
    obtain ⟨e, he, hpe⟩ := List.any_eq_true.mp h
    have : e ∈ frs.filter isPendingEntry := List.mem_filter.mpr ⟨he, hpe⟩
    have : e.1 ∈ (frs.filter isPendingEntry).map Prod.fst := List.mem_map.mpr ⟨e, this, rfl⟩
    rw [hnil] at this
    simp at this
  · intro h
    rcases hf : frs.filter isPendingEntry with _ | ⟨e, t⟩
    · rw [hf] at h; simp at h
    · have he : e ∈ frs.filter isPendingEntry := by rw [hf]; exact List.mem_cons_self e t
      exact List.any_eq_true.mpr ⟨e, (List.mem_filter.mp he).1, (List.mem_filter.mp he).2⟩

/-- C1: within one `process_extraction` call the fallback client is invoked
at most once — exactly once when some field is pending (Absent, or scoring
below `T_LOW` with a failed override), and zero times when none is. -/
theorem c1_fallback_invoked_at_most_once
    (field_results : List (String × Option ScoredCand)) (label : String)
    (extraction_schema : List (String × String)) (document_full_text : String)
    (resp : Option (List (String × String))) (res : List (String × String)) (n : Nat)
    (h : process_extraction field_results label extraction_schema document_full_text resp =
      some (res, n)) :
    n ≤ 1 ∧ (n = 1 ↔ field_results.any isPendingEntry = true) ∧
      (n = 0 ↔ field_results.any isPendingEntry = false) := by
  unfold process_extraction at h
  by_cases he : (processFields extraction_schema field_results).2.isEmpty
  · rw [if_pos he] at h
    simp only [Option.some.injEq, Prod.mk.injEq] at h
    have hn : n = 0 := h.2.symm
    have hnil : (processFields extraction_schema field_results).2 = [] :=
      List.isEmpty_iff.mp he
    have hany : field_results.any isPendingEntry = false := by
      cases ha : field_results.any isPendingEntry
      · rfl
      · exact absurd hnil ((any_pending_iff extraction_schema field_results).mp ha)
    subst hn
    refine ⟨by norm_num, ?_, by simp [hany]⟩
    constructor
    · intro h1; cases h1
    · intro h1; rw [hany] at h1; cases h1
  · rw [if_neg he] at h
    cases hc : call_llm (processFields extraction_schema field_results).2
        extraction_schema resp with
    | none => rw [hc] at h; cases h
    | some llm_results =>
      rw [hc] at h
      rw [Option.map_some'] at h
      simp only [Option.some.injEq, Prod.mk.injEq] at h
      have hn : n = 1 := h.2.symm
      have hnil : (processFields extraction_schema field_results).2 ≠ [] := by
        intro hx
        rw [hx] at he
        simp at he
      have hany : field_results.any isPendingEntry = true :=
        (any_pending_iff extraction_schema field_results).mpr hnil
      subst hn
      refine ⟨le_refl 1, by simp [hany], ?_⟩
      constructor
      · intro h1; cases h1
      · intro h1; rw [hany] at h1; cases h1

/-- Witness for C1: one Absent field, fallback invoked exactly once. -/
theorem c1_fallback_invoked_at_most_once_witness :
    (1 : Nat) ≤ 1 ∧
      ((1 : Nat) = 1 ↔ [("x", (none : Option ScoredCand))].any isPendingEntry = true) ∧
      ((1 : Nat) = 0 ↔ [("x", (none : Option ScoredCand))].any isPendingEntry = false) :=
  c1_fallback_invoked_at_most_once [("x", none)] "label" [("x", "d")] "" (some [])
    [("x", "")] 1 (by decide)

/-! ### Claim C3 (amended side) -/

/-- C3 amended: the deterministic override is consulted only for present
candidates scoring **below `T_LOW` (0.60)** — not below 0.85 as claimed; in
the 0.60–0.85 band the engine normalizes deterministically without either
override or fallback.  For a sub-`T_LOW` candidate, a passing override
accepts the normalized text and a failing override routes the field to the
fallback batch. -/
theorem c3_override_tested_below_tlow
    (extraction_schema : List (String × String)) (frs : List (String × Option ScoredCand))
    (f : String) (c : ScoredCand) (hmem : (f, some c) ∈ frs)
    (hlow : c.final_score < T_LOW) :
    (deterministic_accept f c.cand.text = true →
      (f, normalize_value c.cand.text f) ∈ (processFields extraction_schema frs).1) ∧
    (deterministic_accept f c.cand.text = false →
      f ∈ (processFields extraction_schema frs).2) := by
  induction frs with
  | nil => cases hmem
  | cons e rest ih =>
    rcases List.mem_cons.mp hmem with he | hmem2
    · have h1 : ¬ T_HIGH ≤ c.final_score := by
        intro hc
        exact not_lt_tlow_of_thigh_le c.final_score hc hlow
      have h2 : ¬ T_LOW ≤ c.final_score := not_le.mpr hlow
      constructor
      · intro hacc
        rw [← he]
        simp only [processFields, h1, h2, if_false, hacc, if_true]
        exact List.mem_cons_self _ _
      · intro hacc
        rw [← he]
        simp only [processFields, h1, h2, hacc, if_false]
        exact List.mem_cons_self _ _
    · obtain ⟨hv, hp⟩ := ih hmem2
      constructor
      · intro hacc
        have hm := hv hacc
        obtain ⟨g, oc⟩ := e
        match oc with
        | none => simpa [processFields] using hm
        | some d =>
          by_cases k1 : T_HIGH ≤ d.final_score
          · simp only [processFields, k1, if_true]
            exact List.mem_cons_of_mem _ hm
          · by_cases k2 : T_LOW ≤ d.final_score
            · simp only [processFields, k1, k2, if_false, if_true]
              exact List.mem_cons_of_mem _ hm
            · by_cases k3 : deterministic_accept g d.cand.text = true
              · simp only [processFields, k1, k2, k3, if_false, if_true]
                exact List.mem_cons_of_mem _ hm
              · simpa [processFields, k1, k2, k3] using hm
      · intro hacc
        have hm := hp hacc
        obtain ⟨g, oc⟩ := e
        match oc with
        | none =>
          simp only [processFields]
          exact List.mem_cons_of_mem _ hm
        | some d =>
          by_cases k1 : T_HIGH ≤ d.final_score
          · simpa [processFields, k1] using hm
          · by_cases k2 : T_LOW ≤ d.final_score
            · simpa [processFields, k1, k2] using hm
            · by_cases k3 : deterministic_accept g d.cand.text = true
              · simpa [processFields, k1, k2, k3] using hm
              · simp only [processFields, k1, k2, k3, if_false]
                exact List.mem_cons_of_mem _ hm

/-- Witness for C3's amended statement: a sub-`T_LOW` CPF candidate with 11
digits is accepted by the override while a sub-`T_LOW` `nome` candidate fails
it and joins the fallback batch. -/
theorem c3_override_tested_below_tlow_witness :
    ("cpf", normalize_value "12345678901" "cpf") ∈
      (processFields [("cpf", "d"), ("nome", "d")]
        [("cpf", some (ScoredCand.mk
            (Cand.mk "12345678901" "12345678901" (0, 0, 0, 0) 0 "regex" none none none)
            (mkRat 5 10))),
         ("nome", some (ScoredCand.mk
            (Cand.mk "abc" "abc" (0, 0, 0, 0) 0 "semantic" none none none)
            (mkRat 5 10)))]).1 ∧
    "nome" ∈
      (processFields [("cpf", "d"), ("nome", "d")]
        [("cpf", some (ScoredCand.mk
            (Cand.mk "12345678901" "12345678901" (0, 0, 0, 0) 0 "regex" none none none)
            (mkRat 5 10))),
         ("nome", some (ScoredCand.mk
            (Cand.mk "abc" "abc" (0, 0, 0, 0) 0 "semantic" none none none)
            (mkRat 5 10)))]).2 :=
  ⟨(c3_override_tested_below_tlow [("cpf", "d"), ("nome", "d")]
      [("cpf", some (ScoredCand.mk
          (Cand.mk "12345678901" "12345678901" (0, 0, 0, 0) 0 "regex" none none none)
          (mkRat 5 10))),
       ("nome", some (ScoredCand.mk
          (Cand.mk "abc" "abc" (0, 0, 0, 0) 0 "semantic" none none none)
          (mkRat 5 10)))]
      "cpf"
      (ScoredCand.mk
        (Cand.mk "12345678901" "12345678901" (0, 0, 0, 0) 0 "regex" none none none)
        (mkRat 5 10))
      (by decide) (by decide)).1 (by decide),
   (c3_override_tested_below_tlow [("cpf", "d"), ("nome", "d")]
      [("cpf", some (ScoredCand.mk
          (Cand.mk "12345678901" "12345678901" (0, 0, 0, 0) 0 "regex" none none none)
          (mkRat 5 10))),
       ("nome", some (ScoredCand.mk
          (Cand.mk "abc" "abc" (0, 0, 0, 0) 0 "semantic" none none none)
          (mkRat 5 10)))]
      "nome"
      (ScoredCand.mk
        (Cand.mk "abc" "abc" (0, 0, 0, 0) 0 "semantic" none none none)
        (mkRat 5 10))
      (by decide) (by decide)).2 (by decide)⟩

/-! ### Claim C8: the fallback client's degradation contract -/

theorem extract_fields_lookup (fields : List (String × String))
    (resp : Option (List (String × String))) (f : String) (hf : f ∈ fields.map Prod.fst) :
    ∃ v, (extract_fields fields resp).lookup f = some v ∧
      (resp = none → v = "") ∧
      (∀ r, resp = some r → (r.lookup f = some v ∨ (r.lookup f = none ∧ v = ""))) := by
  obtain ⟨d, hd⟩ := lookup_isSome_of_mem_keys fields f hf
  cases resp with
  | none =>
    refine ⟨"", ?_, fun _ => rfl, fun r hr => by cases hr⟩
    unfold extract_fields
    have := lookup_map_withKey (fun _ _ => "") fields f
    simp only at this
    rw [this, hd]
    rfl
  | some r =>
    unfold extract_fields
    cases hr : r.lookup f with
    | some v =>
      refine ⟨v, ?_, ?_, ?_⟩
      · rw [lookup_append, hr]
      · intro hn; cases hn
      · intro r2 hr2
        obtain rfl : r = r2 := by injection hr2
        exact Or.inl hr
    | none =>
      refine ⟨"", ?_, ?_, ?_⟩
      · rw [lookup_append, hr]
        have hfk : ∀ v : String, (fun fd : String × String => (r.lookup fd.1).isNone) (f, v)
            = true := by
          intro v
          simp [hr]
        have h1 := lookup_filter_key (fun fd : String × String => (r.lookup fd.1).isNone)
          fields f hfk
        have h2 := lookup_map_withKey (fun _ _ => "")
          (fields.filter (fun fd => (r.lookup fd.1).isNone)) f
        simp only at h2
        rw [h2, h1, hd]
        rfl
      · intro hn; cases hn
      · intro r2 hr2
        obtain rfl : r = r2 := by injection hr2
        exact Or.inr ⟨hr, rfl⟩

/-- C8: on any fallback invocation, a service failure yields the empty string
for every requested field (the call itself returns instead of raising), and a
successful response covers every requested field, defaulting missing keys to
the empty string. -/
theorem c8_fallback_degrades_to_empty
    (fields : List (String × String)) (resp : Option (List (String × String)))
    (f : String) (hf : f ∈ fields.map Prod.fst) :
    (resp = none → (extract_fields fields resp).lookup f = some "") ∧
    (∀ r, resp = some r →
      ∃ v, (extract_fields fields resp).lookup f = some v ∧
        (r.lookup f = some v ∨ (r.lookup f = none ∧ v = ""))) := by
  obtain ⟨v, hv, hnone, hsome⟩ := extract_fields_lookup fields resp f hf
  constructor
  · intro hn
    rw [hv, hnone hn]
  · intro r hr
    exact ⟨v, hv, hsome r hr⟩

/-- Witness for C8: two requested fields, a response covering only the first;
the second degrades to the empty string. -/
theorem c8_fallback_degrades_to_empty_witness :
    ((some [("a", "va")] : Option (List (String × String))) = none →
      (extract_fields [("a", "da"), ("b", "db")] (some [("a", "va")])).lookup "b" =
        some "") ∧
    (∀ r, (some [("a", "va")] : Option (List (String × String))) = some r →
      ∃ v, (extract_fields [("a", "da"), ("b", "db")] (some [("a", "va")])).lookup "b" =
          some v ∧
        (r.lookup "b" = some v ∨ (r.lookup "b" = none ∧ v = ""))) :=
  c8_fallback_degrades_to_empty [("a", "da"), ("b", "db")] (some [("a", "va")]) "b"
    (by decide)

/-! ### Claim C6: CPF shape score and canonical formatting -/

theorem not_digit_of_pySpace (c : Char) (h : pySpace c = true) : c.isDigit = false := by
  simp only [pySpace, Bool.or_eq_true, decide_eq_true_eq] at h
  rcases h with ((((h | h) | h) | h) | h) | h <;> subst h <;> rfl

theorem pySpace_of_digit (c : Char) (h : c.isDigit = true) : pySpace c = false := by
  cases hp : pySpace c
  · rfl
  · rw [not_digit_of_pySpace c hp] at h
    cases h

theorem toLower_of_digit (c : Char) (h : c.isDigit = true) : c.toLower = c := by
  have h2 : c.toNat ≤ 57 := by
    simp only [Char.isDigit, Bool.and_eq_true, decide_eq_true_eq] at h
    have := h.2
    simpa [UInt32.le_def, Char.toNat] using this
  unfold Char.toLower
  rw [if_neg]
  intro hc
  omega

theorem all_space_of_strip_nil (l : List Char) (h : pyStripList l = []) :
    ∀ c ∈ l, pySpace c = true := by
  unfold pyStripList at h
  rw [List.reverse_eq_nil_iff] at h
  have h2 : ∀ c ∈ (l.dropWhile pySpace).reverse, pySpace c = true :=
    List.dropWhile_eq_nil_iff.mp h
  have h3 : ∀ c ∈ l.dropWhile pySpace, pySpace c = true := by
    intro c hc
    exact h2 c (List.mem_reverse.mpr hc)
  intro c hc
  rw [← List.takeWhile_append_dropWhile (p := pySpace) (l := l)] at hc
  rcases List.mem_append.mp hc with hc1 | hc2
  · exact List.mem_takeWhile_imp hc1
  · exact h3 c hc2

theorem filter_digit_joinWords_cons (w : List Char) (ws : List (List Char)) :
    (joinWords (w :: ws)).filter Char.isDigit =
      w.filter Char.isDigit ++ (joinWords ws).filter Char.isDigit := by
  cases ws with
  | nil => simp [joinWords]
  | cons w2 ws2 =>
    show ((w ++ ' ' :: joinWords (w2 :: ws2)).filter Char.isDigit) = _
    rw [List.filter_append, List.filter_cons]
    simp only [(by decide : (' ').isDigit = false), Bool.false_eq_true, if_false]

theorem filter_digit_splitAux (l : List Char) :
    ∀ acc : List Char,
      (joinWords (pySplitAux l acc)).filter Char.isDigit =
        acc.reverse.filter Char.isDigit ++ l.filter Char.isDigit := by
  induction l with
  | nil =>
    intro acc
    by_cases h : acc.isEmpty
    · have hn : acc = [] := List.isEmpty_iff.mp h
      subst hn
      simp [pySplitAux, joinWords]
    · simp [pySplitAux, h, joinWords]
  | cons c cs ih =>
    intro acc
    by_cases hc : pySpace c = true
    · have hcd : c.isDigit = false := not_digit_of_pySpace c hc
      by_cases h : acc.isEmpty
      · have hn : acc = [] := List.isEmpty_iff.mp h
        subst hn
        simp [pySplitAux, hc, ih [], List.filter_cons, hcd]
      · simp only [pySplitAux, hc, if_true, h, Bool.false_eq_true, if_false,
          filter_digit_joinWords_cons, ih [], List.filter_cons, hcd]
        simp [List.filter_cons, hcd]
    · simp only [pySplitAux, hc, Bool.false_eq_true, if_false, ih (c :: acc)]
      rw [List.reverse_cons, List.filter_append, List.filter_cons]
      cases hd : c.isDigit <;> simp [List.filter_cons, hd]

theorem filter_digit_joinSplit (l : List Char) :
    (joinSplit l).filter Char.isDigit = l.filter Char.isDigit := by
  unfold joinSplit pySplitList
  simpa using filter_digit_splitAux l []

/-- C6: for a field whose lowered name contains the `cpf` marker and a
candidate text with exactly 11 digits, the value-shape component is 1.0, and
`_normalize_value` formats the digits as `XXX.XXX.XXX-XX`. -/
theorem c6_cpf_eleven_digits (field_name field_description text : String)
    (hf : strContains (pyLowerStr field_name) "cpf" = true)
    (hd : (text.data.filter Char.isDigit).length = 11) :
    validate_value text field_name field_description = 1 ∧
    normalize_value text field_name = String.mk (fmtCpf (text.data.filter Char.isDigit)) := by
  have hne : pyStripList (pyLowerList text.data) ≠ [] := by
    have hx : ∃ c ∈ text.data, c.isDigit = true := by
      rcases hfd : text.data.filter Char.isDigit with _ | ⟨c, t⟩
      · rw [hfd] at hd; cases hd
      · have hm : c ∈ text.data.filter Char.isDigit := by
          rw [hfd]; exact List.mem_cons_self c t
        exact ⟨c, (List.mem_filter.mp hm).1, (List.mem_filter.mp hm).2⟩
    obtain ⟨c, hc, hcd⟩ := hx
    have hmem : c.toLower ∈ pyLowerList text.data := List.mem_map.mpr ⟨c, hc, rfl⟩
    intro hnil
    have hsp := all_space_of_strip_nil _ hnil c.toLower hmem
    rw [toLower_of_digit c hcd, pySpace_of_digit c hcd] at hsp
    cases hsp
  have hE : (pyStripList (pyLowerList text.data)).isEmpty = false := by
    cases hEE : (pyStripList (pyLowerList text.data)).isEmpty
    · rfl
    · exact absurd (List.isEmpty_iff.mp hEE) hne
  constructor
  · unfold validate_value
    simp only [hE, Bool.false_eq_true, if_false, hf, if_true, hd]
  · have hjd : (joinSplit text.data).filter Char.isDigit = text.data.filter Char.isDigit :=
      filter_digit_joinSplit text.data
    have ht : tryCpf (pyLowerStr field_name) (joinSplit text.data) =
        some (fmtCpf (text.data.filter Char.isDigit)) := by
      unfold tryCpf
      simp only [hf, if_true, hjd, hd]
    unfold normalize_value
    simp only [ht]

/-- Witness for C6 on a punctuated CPF candidate with surrounding spaces. -/
theorem c6_cpf_eleven_digits_witness :
    validate_value " 123.456.789-09 " "CPF" "" = 1 ∧
    normalize_value " 123.456.789-09 " "CPF" =
      String.mk (fmtCpf (" 123.456.789-09 ".data.filter Char.isDigit)) :=
  c6_cpf_eleven_digits "CPF" "" " 123.456.789-09 " (by decide) (by decide)

/-! ### Claim C9: behaviour on an empty fragment list -/

/-- With no processed blocks, the pattern source cannot anchor any match and
the semantic source returns before consulting the embedding, so every field
gets an empty candidate list — for any oracle behaviour. -/
theorem generate_candidates_no_blocks (find : RegexOracle) (sim : SimOracle)
    (label : String) (extraction_schema : List (String × String)) (top_k : Nat) :
    generate_candidates find sim (extract_features []) label extraction_schema top_k =
      extraction_schema.map (fun fd => (fd.1, [])) := by
  unfold generate_candidates
  apply List.map_congr_left
  intro fd _
  have hregex : regex_candidates find (extract_features []) fd.1 fd.2 = [] := by
    unfold regex_candidates
    apply List.flatMap_eq_nil_iff.mpr
    intro pm _
    apply List.filterMap_eq_nil_iff.mpr
    intro m _
    simp [extract_features]
  have hsem : semantic_search sim (extract_features []) fd.1 fd.2 label top_k = [] := by
    unfold semantic_search
    simp [extract_features]
  rw [hregex, hsem]
  simp [deduplicate_candidates, sortByScoreDesc]

theorem field_results_no_blocks (find : RegexOracle) (sim : SimOracle)
    (label : String) (extraction_schema : List (String × String)) :
    field_results_of find sim label extraction_schema [] =
      extraction_schema.map (fun fd => (fd.1, none)) := by
  unfold field_results_of
  simp only []
  rw [generate_candidates_no_blocks]
  rw [List.map_map]
  apply List.map_congr_left
  intro fd _
  rfl

theorem processFields_all_absent (extraction_schema : List (String × String)) :
    ∀ schema2 : List (String × String),
      processFields extraction_schema (schema2.map (fun fd => (fd.1, none))) =
        ([], schema2.map Prod.fst) := by
  intro schema2
  induction schema2 with
  | nil => rfl
  | cons fd rest ih => simp [processFields, ih]

/-- C9 counterexample: with the parser succeeding but returning **zero**
fragments, the extraction does not abort — it completes, covering the one
schema field via a single fallback invocation. -/
theorem c9_empty_fragments_counterexample :
    extract (fun _ _ => []) (fun _ _ => 0) "fatura" [("cpf", "numero do CPF")]
      (some []) none = some ([("cpf", "")], 1) := by decide

/-- C9 amended: an empty fragment list is not fatal: the pipeline proceeds,
every schema field is Absent and is resolved by exactly one fallback call
(zero calls only for an empty schema, which yields the empty outcome), and
the only abort of `extract` is the text-extraction step itself raising. -/
theorem c9_empty_fragments_fallback (find : RegexOracle) (sim : SimOracle)
    (label : String) (extraction_schema : List (String × String))
    (resp : Option (List (String × String))) (hne : extraction_schema ≠ []) :
    (∃ res, extract_from_blocks find sim label extraction_schema [] resp = some (res, 1)) ∧
    extract find sim label extraction_schema none resp = none ∧
    extract_from_blocks find sim label [] [] resp = some ([], 0) := by
  refine ⟨?_, rfl, rfl⟩
  unfold extract_from_blocks
  rw [field_results_no_blocks]
  unfold process_extraction
  rw [processFields_all_absent]
  have hkeys : extraction_schema.map Prod.fst ≠ [] := by
    intro h
    exact hne (List.map_eq_nil_iff.mp h)
  rw [if_neg (by simpa [List.isEmpty_iff] using hkeys)]
  have hcall : call_llm (extraction_schema.map Prod.fst) extraction_schema resp =
      some (extract_fields
        ((extraction_schema.map Prod.fst).map
          (fun f => (f, (extraction_schema.lookup f).getD ""))) resp) := by
    unfold call_llm
    rw [if_pos]
    apply List.all_eq_true.mpr
    intro f hfm
    obtain ⟨v, hv⟩ := lookup_isSome_of_mem_keys extraction_schema f hfm
    simp [hv]
  rw [hcall]
  exact ⟨_, rfl⟩

/-- Witness for C9's amended statement at a one-field schema. -/
theorem c9_empty_fragments_fallback_witness :
    (∃ res, extract_from_blocks (fun _ _ => []) (fun _ _ => 0) "fatura"
      [("cpf", "numero do CPF")] [] none = some (res, 1)) ∧
    extract (fun _ _ => []) (fun _ _ => 0) "fatura" [("cpf", "numero do CPF")] none none =
      none ∧
    extract_from_blocks (fun _ _ => []) (fun _ _ => 0) "fatura" [] [] none =
      some ([], 0) :=
  c9_empty_fragments_fallback (fun _ _ => []) (fun _ _ => 0) "fatura"
    [("cpf", "numero do CPF")] none (by decide)

/-! ### Claim C2: the outcome mapping is total over the schema -/

/-- A schema field is pending in a field-result list when its entry is routed
to the fallback batch. -/
def field_pending (frs : List (String × Option ScoredCand)) (f : String) : Bool :=
  frs.any (fun e => e.1 = f && isPendingEntry e)

theorem mem_pending_iff (extraction_schema : List (String × String))
    (frs : List (String × Option ScoredCand)) (f : String) :
    f ∈ (processFields extraction_schema frs).2 ↔ field_pending frs f = true := by
  rw [processFields_pending]
  unfold field_pending
  constructor
  · intro h
    obtain ⟨e, he, hef⟩ := List.mem_map.mp h
    exact List.any_eq_true.mpr ⟨e, (List.mem_filter.mp he).1,
      by simp [hef, (List.mem_filter.mp he).2]⟩
  · intro h
    obtain ⟨e, he, hp⟩ := List.any_eq_true.mp h
    simp only [Bool.and_eq_true, decide_eq_true_eq] at hp
    exact List.mem_map.mpr ⟨e, List.mem_filter.mpr ⟨he, hp.2⟩, hp.1⟩

theorem field_results_keys (find : RegexOracle) (sim : SimOracle) (label : String)
    (extraction_schema : List (String × String)) (blocks : List TextBlock) :
    (field_results_of find sim label extraction_schema blocks).map Prod.fst =
      extraction_schema.map Prod.fst := by
  unfold field_results_of generate_candidates
  simp [List.map_map, Function.comp]

theorem mem_keys_of_mem_pending (extraction_schema : List (String × String))
    (frs : List (String × Option ScoredCand)) (f : String)
    (hf : f ∈ (processFields extraction_schema frs).2) : f ∈ frs.map Prod.fst := by
  rw [processFields_pending] at hf
  exact mem_keys_of_mem_filter_keys _ _ _ hf

theorem vals_lookup_isSome_of_not_pending (extraction_schema : List (String × String))
    (frs : List (String × Option ScoredCand)) (f : String)
    (hk : f ∈ frs.map Prod.fst) (hnp : f ∉ (processFields extraction_schema frs).2) :
    ∃ v, (processFields extraction_schema frs).1.lookup f = some v := by
  apply lookup_isSome_of_mem_keys
  rw [processFields_vals_keys]
  rw [processFields_pending] at hnp
  obtain ⟨e, he, hef⟩ := List.mem_map.mp hk
  have hpe : isPendingEntry e = false := by
    cases hp : isPendingEntry e
    · rfl
    · exact absurd (List.mem_map.mpr ⟨e, List.mem_filter.mpr ⟨he, hp⟩, hef⟩) hnp
  exact List.mem_map.mpr ⟨e, List.mem_filter.mpr ⟨he, by simp [hpe]⟩, hef⟩

theorem dictUpdate_lookup_of_base (base upd : List (String × String)) (f v : String)
    (h : base.lookup f = some v) :
    (dictUpdate base upd).lookup f = some ((upd.lookup f).getD v) := by
  unfold dictUpdate
  rw [lookup_append]
  have hm := lookup_map_withKey (fun k w => (upd.lookup k).getD w) base f
  simp only at hm
  rw [hm, h]
  rfl

theorem dictUpdate_lookup_of_missing (base upd : List (String × String)) (f : String)
    (h : base.lookup f = none) :
    (dictUpdate base upd).lookup f = upd.lookup f := by
  unfold dictUpdate
  rw [lookup_append]
  have hm := lookup_map_withKey (fun k w => (upd.lookup k).getD w) base f
  simp only at hm
  rw [hm, h]
  simp only [Option.map_none']
  exact lookup_filter_key (fun kv => (base.lookup kv.1).isNone) upd f (fun w => by simp [h])

theorem call_llm_isSome (pending_fields : List String)
    (extraction_schema : List (String × String)) (resp : Option (List (String × String)))
    (hsub : ∀ f ∈ pending_fields, f ∈ extraction_schema.map Prod.fst) :
    call_llm pending_fields extraction_schema resp =
      some (extract_fields
        (pending_fields.map (fun f => (f, (extraction_schema.lookup f).getD ""))) resp) := by
  unfold call_llm
  rw [if_pos]
  apply List.all_eq_true.mpr
  intro f hf
  obtain ⟨v, hv⟩ := lookup_isSome_of_mem_keys extraction_schema f (hsub f hf)
  simp [hv]

/-- C2: for every label, schema, fragment list and service behaviour, the
outcome mapping returned by `extract` (post-parse) exists, has a value —
a string, never `None` — for every schema field, and every field that is
still unresolved after the fallback (pending, and not covered by the service
response) maps to the empty string. -/
theorem c2_outcome_covers_schema (find : RegexOracle) (sim : SimOracle) (label : String)
    (extraction_schema : List (String × String)) (blocks : List TextBlock)
    (resp : Option (List (String × String)))
    (hnd : (extraction_schema.map Prod.fst).Nodup) :
    ∃ res n, extract_from_blocks find sim label extraction_schema blocks resp =
        some (res, n) ∧
      ∀ f ∈ extraction_schema.map Prod.fst, ∃ v : String, res.lookup f = some v ∧
        (field_pending (field_results_of find sim label extraction_schema blocks) f = true →
          (resp = none ∨ ∃ r, resp = some r ∧ r.lookup f = none) → v = "") := by
  have hkeys := field_results_keys find sim label extraction_schema blocks
  set frs := field_results_of find sim label extraction_schema blocks with hfrs
  have hnd2 : (frs.map Prod.fst).Nodup := by rw [hkeys]; exact hnd
  unfold extract_from_blocks
  rw [← hfrs]
  simp only [process_extraction]
  by_cases he : (processFields extraction_schema frs).2.isEmpty
  · rw [if_pos he]
    refine ⟨_, 0, rfl, ?_⟩
    intro f hfm
    have hfk : f ∈ frs.map Prod.fst := by rw [hkeys]; exact hfm
    have hnp : f ∉ (processFields extraction_schema frs).2 := by
      rw [List.isEmpty_iff.mp he]
      simp
    obtain ⟨v, hv⟩ := vals_lookup_isSome_of_not_pending _ _ _ hfk hnp
    refine ⟨v, hv, ?_⟩
    intro hp _
    exact absurd ((mem_pending_iff extraction_schema frs f).mpr hp) hnp
  · rw [if_neg he]
    have hpsub : ∀ g ∈ (processFields extraction_schema frs).2,
        g ∈ extraction_schema.map Prod.fst := by
      intro g hg
      rw [← hkeys]
      exact mem_keys_of_mem_pending _ _ _ hg
    rw [call_llm_isSome _ _ _ hpsub, Option.map_some']
    refine ⟨_, 1, rfl, ?_⟩
    intro f hfm
    have hfk : f ∈ frs.map Prod.fst := by rw [hkeys]; exact hfm
    by_cases hfp : f ∈ (processFields extraction_schema frs).2
    · have hvnone := processFields_vals_lookup_none extraction_schema frs hnd2 f hfp
      have hup := dictUpdate_lookup_of_missing _
        (extract_fields ((processFields extraction_schema frs).2.map
          (fun g => (g, (extraction_schema.lookup g).getD ""))) resp) f hvnone
      have hfpend : f ∈ ((processFields extraction_schema frs).2.map
          (fun g => (g, (extraction_schema.lookup g).getD ""))).map Prod.fst := by
        rw [List.map_map]
        simpa [Function.comp] using hfp
      obtain ⟨v, hv, hn, hs⟩ := extract_fields_lookup _ resp f hfpend
      refine ⟨v, by rw [hup, hv], ?_⟩
      intro _ hmiss
      rcases hmiss with rfl | ⟨r, rfl, hr⟩
      · exact hn rfl
      · rcases hs r rfl with h1 | h2
        · rw [hr] at h1; cases h1
        · exact h2.2
    · obtain ⟨v, hv⟩ := vals_lookup_isSome_of_not_pending _ _ _ hfk hfp
      have hup := dictUpdate_lookup_of_base _
        (extract_fields ((processFields extraction_schema frs).2.map
          (fun g => (g, (extraction_schema.lookup g).getD ""))) resp) f v hv
      refine ⟨_, hup, ?_⟩
      intro hp _
      exact absurd ((mem_pending_iff extraction_schema frs f).mpr hp) hfp

/-- Witness for C2 on a one-field schema with no fragments and a failing
service. -/
theorem c2_outcome_covers_schema_witness :
    ∃ res n, extract_from_blocks (fun _ _ => []) (fun _ _ => 0) "l" [("a", "d")] [] none =
        some (res, n) ∧
      ∀ f ∈ ([("a", "d")] : List (String × String)).map Prod.fst,
        ∃ v : String, res.lookup f = some v ∧
          (field_pending
              (field_results_of (fun _ _ => []) (fun _ _ => 0) "l" [("a", "d")] []) f =
              true →
            ((none : Option (List (String × String))) = none ∨
              ∃ r, (none : Option (List (String × String))) = some r ∧ r.lookup f = none) →
            v = "") :=
  c2_outcome_covers_schema (fun _ _ => []) (fun _ _ => 0) "l" [("a", "d")] [] none
    (by decide)
